import Mathlib

/- Formal model of the FIT file encoder (garmin_fit_sdk/encoder.py).

   Shallow embedding conventions:
   * Python dicts become insertion-ordered association lists;
   * Python int becomes Int, Python float becomes Rat;
   * the mutable Encoder object becomes explicit state passing;
   * Python exceptions become Except values;
   * the collaborator modules that are not part of the encoder source
     (fit.py base-type tables, CrcCalculator, util, the static profile)
     are modelled from the specification, as marked on each definition. -/

namespace FitEnc

/-- Python exception kinds raised or caught inside the encoder. -/
inductive PyExc where
  | typeError
  | valueError
  | overflowError
  | structError
  | keyError
  | attributeError
  deriving DecidableEq, Repr

/-- Python int() truncation toward zero of a rational. -/
def pyTrunc (q : ℚ) : ℤ := if 0 ≤ q then ⌊q⌋ else -⌊-q⌋

/-- Python round() on a number: round half to even (banker's rounding). -/
def pyRound (q : ℚ) : ℤ :=
  let f := ⌊q⌋
  let r := q - (f : ℚ)
  if r < 1/2 then f
  else if 1/2 < r then f + 1
  else if f % 2 = 0 then f else f + 1

/-- Little-endian byte list of width w of a nonnegative integer (mod 2^(8*w)). -/
def leBytes : ℕ → ℕ → List ℕ
  | 0, _ => []
  | w + 1, n => (n % 256) :: leBytes w (n / 256)

/-- struct.pack with format <H. -/
def u16le (n : ℕ) : List ℕ := leBytes 2 n

/-- struct.pack with format <L. -/
def u32le (n : ℕ) : List ℕ := leBytes 4 n

/-- Modelled from the spec: the nibble table of the table-driven CRC-16
    primitive (CrcCalculator.calculate_crc, a repository module not under
    src/); the spec treats the checksum algorithm as an existing primitive. -/
def crcTable : List ℕ :=
  [0x0000, 0xCC01, 0xD801, 0x1400, 0xF001, 0x3C00, 0x2800, 0xE401,
   0xA001, 0x6C00, 0x7800, 0xB401, 0x5000, 0x9C01, 0x8801, 0x4400]

/-- Modelled from the spec: one nibble step of the table-driven CRC-16. -/
def crcNibble (crc x : ℕ) : ℕ :=
  let tmp := crcTable.getD (crc % 16) 0
  let crc2 := (crc / 16) % 0x1000
  crc2 ^^^ tmp ^^^ crcTable.getD (x % 16) 0

/-- Modelled from the spec: one byte step of the table-driven CRC-16. -/
def crcByte (crc b : ℕ) : ℕ := crcNibble (crcNibble crc b) (b / 16)

/-- Modelled from the spec: CrcCalculator.calculate_crc over a whole buffer. -/
def calculate_crc (bs : List ℕ) : ℕ := bs.foldl crcByte 0

/-- Modelled from the spec: util.FIT_EPOCH_S, the Unix timestamp of the FIT
    epoch 1989-12-31 00:00:00 UTC (named in encoder.py's own comments). -/
def FIT_EPOCH_S : ℤ := 631065600

/-- One row of the fixed base-type table: byte size of one element, the
    invalid sentinel, and the struct type code used for packing. -/
structure BTDef where
  size : ℕ
  invalid : ℕ
  code : Char
  deriving DecidableEq, Repr

/-- Modelled from the spec: FIT.BASE_TYPE from the repository's fit module
    (not under src/): base-type name to numeric code.  The numeric codes are
    pinned by encoder.py's own comments (SINT8=1, UINT8=2, STRING=7,
    SINT16=131, UINT16=132, SINT32=133, UINT32=134, FLOAT32=136, ENUM=0). -/
def BASE_TYPE : List (String × ℕ) :=
  [("ENUM", 0), ("SINT8", 1), ("UINT8", 2), ("STRING", 7), ("UINT8Z", 10),
   ("BYTE", 13), ("SINT16", 131), ("UINT16", 132), ("SINT32", 133),
   ("UINT32", 134), ("FLOAT32", 136), ("FLOAT64", 137), ("UINT16Z", 139),
   ("UINT32Z", 140), ("SINT64", 142), ("UINT64", 143), ("UINT64Z", 144)]

/-- Python dict lookup d.get(k) / `k in d` on an association list; first
    binding wins, as dict keys are unique. -/
def dictGet {κ α : Type} [DecidableEq κ] (m : List (κ × α)) (k : κ) : Option α :=
  match m with
  | [] => none
  | (k', v) :: rest => if k = k' then some v else dictGet rest k

/-- FIT.BASE_TYPE lookup by name (names above are always present). -/
def baseType (s : String) : ℕ := (dictGet BASE_TYPE s).getD 0

/-- Modelled from the spec: FIT.BASE_TYPE_DEFINITIONS from the repository's
    fit module (not under src/): numeric base-type code to size, invalid
    sentinel and struct type code ("signed/unsigned integers 8/16/32/64-bit,
    32/64-bit float, string, enum" per the spec's data model). -/
def BASE_TYPE_DEFINITIONS : List (ℕ × BTDef) :=
  [(0, ⟨1, 0xFF, 'B'⟩),
   (1, ⟨1, 0x7F, 'b'⟩),
   (2, ⟨1, 0xFF, 'B'⟩),
   (7, ⟨1, 0x00, 's'⟩),
   (10, ⟨1, 0x00, 'B'⟩),
   (13, ⟨1, 0xFF, 'B'⟩),
   (131, ⟨2, 0x7FFF, 'h'⟩),
   (132, ⟨2, 0xFFFF, 'H'⟩),
   (133, ⟨4, 0x7FFFFFFF, 'i'⟩),
   (134, ⟨4, 0xFFFFFFFF, 'I'⟩),
   (136, ⟨4, 0xFFFFFFFF, 'f'⟩),
   (137, ⟨8, 0xFFFFFFFFFFFFFFFF, 'd'⟩),
   (139, ⟨2, 0x0000, 'H'⟩),
   (140, ⟨4, 0x00000000, 'I'⟩),
   (142, ⟨8, 0x7FFFFFFFFFFFFFFF, 'q'⟩),
   (143, ⟨8, 0xFFFFFFFFFFFFFFFF, 'Q'⟩),
   (144, ⟨8, 0x0000000000000000, 'Q'⟩)]

/-- Membership test `base_type in FIT.BASE_TYPE_DEFINITIONS`. -/
def btLookup (bt : ℕ) : Option BTDef := dictGet BASE_TYPE_DEFINITIONS bt

/-- Modelled from the spec: FIT.FIELD_TYPE_TO_BASE_TYPE from the repository's
    fit module (not under src/): the fixed semantic-type-name to base-type
    table of spec 4.1 ("strings always map to STRING").  Only the base-named
    entries are pinned; theorems about catalog types take membership in this
    table as a hypothesis or use the pinned entries. -/
def FIELD_TYPE_TO_BASE_TYPE : List (String × ℕ) :=
  [("enum", 0), ("sint8", 1), ("uint8", 2), ("string", 7), ("uint8z", 10),
   ("byte", 13), ("sint16", 131), ("uint16", 132), ("sint32", 133),
   ("uint32", 134), ("float32", 136), ("float64", 137), ("uint16z", 139),
   ("uint32z", 140), ("sint64", 142), ("uint64", 143), ("uint64z", 144),
   ("date_time", 134), ("local_date_time", 134), ("message_index", 132)]

/-- A loosely-typed Python field value as the encoder sees it: None, bool,
    int, float (modelled as a rational), str, list, dict-of-developer-values,
    or a datetime (modelled by its integer Unix timestamp). -/
inductive Value where
  | vNone
  | vBool (b : Bool)
  | vInt (n : ℤ)
  | vFloat (q : ℚ)
  | vStr (s : String)
  | vArr (xs : List Value)
  | vDict (xs : List (ℕ × Value))
  | vTime (unixSeconds : ℤ)

namespace Value

/-- Python isinstance(v, int): bool is a subtype of int in Python. -/
def isInt : Value → Bool
  | vInt _ => true
  | vBool _ => true
  | _ => false

/-- Python isinstance(v, bool). -/
def isBool : Value → Bool
  | vBool _ => true
  | _ => false

/-- Python isinstance(v, float). -/
def isFloat : Value → Bool
  | vFloat _ => true
  | _ => false

/-- Python isinstance(v, str). -/
def isStr : Value → Bool
  | vStr _ => true
  | _ => false

/-- Python isinstance(v, (list, tuple)). -/
def isList : Value → Bool
  | vArr _ => true
  | _ => false

/-- Python isinstance(v, dict). -/
def isDict : Value → Bool
  | vDict _ => true
  | _ => false

/-- Python `v is None`. -/
def isNone : Value → Bool
  | vNone => true
  | _ => false

/-- Python isinstance(v, datetime.datetime). -/
def isTime : Value → Bool
  | vTime _ => true
  | _ => false

/-- The numeric content of a Python number (bool counts as 0/1). -/
def asNum? : Value → Option ℚ
  | vBool b => some (if b then 1 else 0)
  | vInt n => some (n : ℚ)
  | vFloat q => some q
  | _ => none

/-- The integer content of a Python int (bool counts as 0/1); none when the
    value is not an int in Python's sense. -/
def asInt? : Value → Option ℤ
  | vBool b => some (if b then 1 else 0)
  | vInt n => some n
  | _ => none

end Value

/-- Decimal digit value of a character. -/
def digitVal (c : Char) : ℕ := c.toNat - 48

/-- Parse a nonempty all-digit character list as a natural number
    (Python str.isdigit plus int parsing). -/
def decDigits? (cs : List Char) : Option ℕ :=
  if cs.isEmpty then none
  else if cs.all Char.isDigit then
    some (cs.foldl (fun a c => a * 10 + digitVal c) 0)
  else none

/-- Python int(s) on a string: optional sign followed by digits. -/
def pyStrToInt? (s : String) : Option ℤ :=
  match s.data with
  | '-' :: rest => (decDigits? rest).map (fun n => -(n : ℤ))
  | cs => (decDigits? cs).map (fun n => (n : ℤ))

/-- The decimal digits of a natural number (fuel-based so that it reduces
    everywhere). -/
def natStrAux : ℕ → ℕ → List Char
  | 0, _ => []
  | fuel + 1, n =>
      if n < 10 then [Char.ofNat (48 + n)]
      else natStrAux fuel (n / 10) ++ [Char.ofNat (48 + n % 10)]

/-- Python str(n) for a natural number. -/
def natStr (n : ℕ) : String := ⟨natStrAux (n + 1) n⟩

/-- Python int(v): truncates floats toward zero, parses decimal strings,
    raises TypeError or ValueError otherwise. -/
def pyInt : Value → Except PyExc ℤ
  | .vBool b => .ok (if b then 1 else 0)
  | .vInt n => .ok n
  | .vFloat q => .ok (pyTrunc q)
  | .vStr s => match pyStrToInt? s with
      | some n => .ok n
      | none => .error .valueError
  | _ => .error .typeError

/-- Python float(v): raises TypeError or ValueError for non-numbers. -/
def pyFloat : Value → Except PyExc ℚ
  | .vBool b => .ok (if b then 1 else 0)
  | .vInt n => .ok (n : ℚ)
  | .vFloat q => .ok q
  | .vStr _ => .error .valueError
  | _ => .error .typeError

/-- A message field key: a field name (string) or a raw numeric id. -/
inductive FKey where
  | name (s : String)
  | num (n : ℕ)
  deriving DecidableEq, Repr

/-- A message: an insertion-ordered mapping from field key to value. -/
abbrev Msg := List (FKey × Value)

/-- Python dict assignment d[k] = v: replace in place, else append,
    preserving insertion order. -/
def dictInsert {κ α : Type} [DecidableEq κ] (k : κ) (v : α) :
    List (κ × α) → List (κ × α)
  | [] => [(k, v)]
  | (k', v') :: rest =>
      if k = k' then (k, v) :: rest else (k', v') :: dictInsert k v rest

/-- Python d.setdefault-style step: append v to the list stored at k,
    creating the key at the end on first use. -/
def dictAppendAt {κ : Type} [DecidableEq κ] (k : κ) (v : Value) :
    List (κ × List Value) → List (κ × List Value)
  | [] => [(k, [v])]
  | (k', vs) :: rest =>
      if k = k' then (k, vs ++ [v]) :: rest else (k', vs) :: dictAppendAt k v rest

/-- Python dict key creation d[k] = [] when absent (keeps existing list). -/
def dictEnsure {κ : Type} [DecidableEq κ] (k : κ) :
    List (κ × List Value) → List (κ × List Value)
  | [] => [(k, [])]
  | (k', vs) :: rest =>
      if k = k' then (k', vs) :: rest else (k', vs) :: dictEnsure k rest

/-- Ordered insertion of a list element for Python sorted(). -/
def insertBy {α : Type} (le : α → α → Bool) (a : α) : List α → List α
  | [] => [a]
  | b :: bs => if le a b then a :: b :: bs else b :: insertBy le a bs

/-- Python sorted(): stable ascending insertion sort. -/
def sortBy {α : Type} (le : α → α → Bool) : List α → List α
  | [] => []
  | a :: as' => insertBy le a (sortBy le as')

/-- Lexicographic code-point order on character lists (Python string
    comparison). -/
def charsLe : List Char → List Char → Bool
  | [], _ => true
  | _ :: _, [] => false
  | a :: as', b :: bs =>
      if a.toNat < b.toNat then true
      else if b.toNat < a.toNat then false
      else charsLe as' bs

/-- Python string less-or-equal: lexicographic on code points. -/
def strLe (a b : String) : Bool := charsLe a.data b.data

/-- Python sorted() on strings: lexicographic code-point order. -/
def sortStrings (l : List String) : List String :=
  sortBy strLe l

/-- Python sorted() on ints. -/
def sortNats (l : List ℕ) : List ℕ := sortBy (fun a b => decide (a ≤ b)) l

/-- A total order on field keys used only to canonicalize frozensets:
    numeric keys before names, each in their natural order. -/
def fkeyLe : FKey → FKey → Bool
  | .num a, .num b => decide (a ≤ b)
  | .num _, .name _ => true
  | .name _, .num _ => false
  | .name a, .name b => strLe a b

/-- Canonical form of Python frozenset(l) over field keys: sorted, deduped.
    Two frozensets are equal iff their canonical forms are equal. -/
def canonSet (l : List FKey) : List FKey := (sortBy fkeyLe l).dedup

/-- One catalog field profile: id, name, semantic type name, scale and
    offset lists (the remaining catalog columns are not read by the
    encoder and are omitted).  The id is an FKey because the dynamic
    profile builder stores the raw message key as the id. -/
structure FieldProfile where
  num : FKey
  name : String
  ftype : String
  scale : List ℚ
  offset : List ℚ
  deriving DecidableEq, Repr

/-- One catalog message profile: name, the messages-collection key, and the
    field profiles keyed by numeric id (or by raw key for dynamic profiles). -/
structure MsgProfile where
  name : String
  messagesKey : String
  fields : List (FKey × FieldProfile)
  deriving DecidableEq, Repr

/-- The static read-only catalog (profile.Profile, a repository module not
    under src/): message profiles by global number and enum type tables.
    The encoder is parametric in it; theorems quantify over catalogs. -/
structure Catalog where
  messages : List (ℕ × MsgProfile)
  types : List (String × List (ℕ × String))
  deriving DecidableEq, Repr

/-- Python `n & 0xFF`-style masking of an int (always nonnegative). -/
def intByte (n : ℤ) : ℕ := (n % 256).toNat

/-- Little-endian two's-complement bytes of width w of an int. -/
def intLE (w : ℕ) (n : ℤ) : List ℕ := leBytes w ((n % ((2 : ℤ) ^ (8 * w))).toNat)

/-- IEEE 754 round-to-nearest-even bit pattern of a rational, with the given
    exponent and mantissa widths (binary32: 8/23, binary64: 11/52).  Models
    struct.pack of a Python float; only its existence and byte width matter
    to the encoder's control flow. -/
def ieeeBits (expBits mantBits : ℕ) (q : ℚ) : ℕ :=
  if q = 0 then 0 else
  let bias : ℤ := 2 ^ (expBits - 1) - 1
  let s : ℕ := if q < 0 then 1 else 0
  let a : ℚ := |q|
  let e : ℤ := Int.log 2 a
  if 1 - bias ≤ e then
    let m : ℤ := pyRound (a * (2 : ℚ) ^ ((mantBits : ℤ) - e))
    let em : ℤ × ℤ := if m = 2 ^ (mantBits + 1) then (e + 1, 2 ^ mantBits) else (e, m)
    let eField : ℤ := em.1 + bias
    if 2 ^ expBits - 1 ≤ eField then
      (s <<< (expBits + mantBits)) ||| ((2 ^ expBits - 1) <<< mantBits)
    else
      (s <<< (expBits + mantBits)) ||| (eField.toNat <<< mantBits) |||
        (em.2 - 2 ^ mantBits).toNat
  else
    let m : ℤ := pyRound (a * (2 : ℚ) ^ ((mantBits : ℤ) + bias - 1))
    (s <<< (expBits + mantBits)) ||| m.toNat

/-- struct.pack of a Python float with format <f. -/
def float32bytes (q : ℚ) : List ℕ := leBytes 4 (ieeeBits 8 23 q % 2 ^ 32)

/-- struct.pack of a Python float with format <d. -/
def float64bytes (q : ℚ) : List ℕ := leBytes 8 (ieeeBits 11 52 q % 2 ^ 64)

/-- The UTF-8 encoding of one character, as byte values. -/
def utf8Char (c : Char) : List ℕ :=
  let n := c.toNat
  if n < 0x80 then [n]
  else if n < 0x800 then [0xC0 + n / 64, 0x80 + n % 64]
  else if n < 0x10000 then
    [0xE0 + n / 4096, 0x80 + n / 64 % 64, 0x80 + n % 64]
  else
    [0xF0 + n / 262144, 0x80 + n / 4096 % 64, 0x80 + n / 64 % 64, 0x80 + n % 64]

/-- The UTF-8 bytes of a string (Python s.encode, as a byte list). -/
def strBytes (s : String) : List ℕ := s.data.foldr (fun c acc => utf8Char c ++ acc) []

/-- Python str(v) as the encoder can reach it (strings, ints, bools;
    other shapes only feed string arrays in degenerate inputs). -/
def pyStr : Value → String
  | .vStr s => s
  | .vInt n => toString n
  | .vBool b => if b then "True" else "False"
  | .vFloat q => toString q
  | .vNone => "None"
  | _ => ""

/-- The exception classes caught by the except clause around the packing
    step of Encoder._write_single_value: (struct.error, ValueError,
    OverflowError, TypeError). -/
def caughtPack (e : PyExc) : Bool :=
  e = .structError || e = .valueError || e = .overflowError || e = .typeError

/-- The exception classes caught inside Encoder._write_field_bytes:
    (struct.error, ValueError). -/
def caughtFieldBytes (e : PyExc) : Bool :=
  e = .structError || e = .valueError

/-- Encoder._write_field_bytes: raw bytes for a field, with the defensive
    base-type fallback and the try/except that degrades to 0xFF bytes. -/
def write_field_bytes (value : Value) (size : ℕ) (base_type : ℕ) :
    Except PyExc (List ℕ) :=
  let bt := match btLookup base_type with
    | some _ => base_type
    | none => baseType "UINT8"
  let btd := (btLookup bt).getD ⟨1, 0xFF, 'B'⟩
  let v := if value.isNone then Value.vInt btd.invalid else value
  let attempt : Except PyExc (List ℕ) :=
    match pyInt v with
    | .error e => .error e
    | .ok n =>
        if size = 1 then .ok [intByte n]
        else if size = 2 then .ok (intLE 2 n)
        else if size = 4 then .ok (intLE 4 n)
        else if size = 8 then
          if 0 ≤ n ∧ n < 2 ^ 64 then .ok (intLE 8 n) else .error .structError
        else .ok (List.replicate size (intByte n))
  match attempt with
  | .ok bs => .ok bs
  | .error e =>
      if caughtFieldBytes e then .ok (List.replicate size 0xFF) else .error e

/-- The try-block body of Encoder._write_single_value: the struct.pack
    dispatch on the base type's struct code (after the None short-circuit).
    Exceptions are the ones Python's int()/float()/struct.pack raise. -/
def packAttempt (value : Value) (btd : BTDef) : Except PyExc (List ℕ) :=
  if btd.code = 'b' then
    match pyInt value with
    | .error e => .error e
    | .ok n => if -128 ≤ n ∧ n ≤ 127 then .ok [intByte n] else .error .structError
  else if btd.code = 'B' then
    match pyInt value with
    | .error e => .error e
    | .ok n => .ok [intByte n]
  else if btd.code = 'h' then
    match pyInt value with
    | .error e => .error e
    | .ok n => if -32768 ≤ n ∧ n ≤ 32767 then .ok (intLE 2 n) else .error .structError
  else if btd.code = 'H' then
    match pyInt value with
    | .error e => .error e
    | .ok n => .ok (intLE 2 n)
  else if btd.code = 'i' || btd.code = 'I' || btd.code = 'l' || btd.code = 'L' then
    match pyInt value with
    | .error e => .error e
    | .ok n =>
        let m : ℤ := n % 2 ^ 32
        if (btd.code = 'i' || btd.code = 'l') ∧ 2 ^ 31 ≤ m then .error .structError
        else .ok (leBytes 4 m.toNat)
  else if btd.code = 'q' || btd.code = 'Q' then
    match pyInt value with
    | .error e => .error e
    | .ok n =>
        if btd.code = 'q' then
          if -(2 ^ 63) ≤ n ∧ n < 2 ^ 63 then .ok (intLE 8 n) else .error .structError
        else
          if 0 ≤ n ∧ n < 2 ^ 64 then .ok (intLE 8 n) else .error .structError
  else if btd.code = 'f' then
    match pyFloat value with
    | .error e => .error e
    | .ok q => .ok (float32bytes q)
  else if btd.code = 'd' then
    match pyFloat value with
    | .error e => .error e
    | .ok q => .ok (float64bytes q)
  else
    .ok [btd.invalid % 256]

/-- The scale/offset inversion step of Encoder._write_single_value: when the
    field profile declares exactly one scale and one offset value and they
    are not the trivial (1, 0), replace a non-None value by the rounded raw
    integer.  Non-numeric values make Python's round raise TypeError. -/
def applyScaleOffset (field_profile : Option FieldProfile) (value : Value) :
    Except PyExc Value :=
  match field_profile with
  | none => .ok value
  | some p =>
      match p.scale, p.offset with
      | [s], [o] =>
          if s ≠ 1 ∨ o ≠ 0 then
            if value.isNone then .ok value
            else
              match value.asNum? with
              | some q =>
                  .ok (.vInt (if o = 0 then pyRound (q * s) else pyRound ((q + o) * s)))
              | none => .error .typeError
          else .ok value
      | _, _ => .ok value

/-- The string-enum resolution step of Encoder._write_single_value: a string
    value for a non-string base type is looked up in the catalog's enum
    table for the field's semantic type; misses inside a known enum table
    become the invalid sentinel, unknown tables leave the string in place. -/
def resolveEnumString (cat : Catalog) (field_profile : Option FieldProfile)
    (btd : BTDef) (value : Value) : Value :=
  match value with
  | .vStr s =>
      match field_profile with
      | none => value
      | some p =>
          match dictGet cat.types p.ftype with
          | none => value
          | some tbl =>
              match tbl.find? (fun e => e.2 = s) with
              | some e => .vInt e.1
              | none => .vInt btd.invalid
  | _ => value

/-- The datetime branch of Encoder._write_single_value: a datetime value
    becomes the FIT timestamp int(value.timestamp()) - util.FIT_EPOCH_S;
    all other values pass through. -/
def timeConv : Value → Value
  | .vTime t => .vInt (t - FIT_EPOCH_S)
  | v => v

/-- Encoder._write_single_value: datetime conversion, scale/offset
    inversion, enum resolution, then packing with the invalid-sentinel
    fallback on any caught packing failure. -/
def write_single_value (cat : Catalog) (value : Value) (base_type : ℕ)
    (field_profile : Option FieldProfile) : Except PyExc (List ℕ) :=
  match btLookup base_type with
  | none => .error .keyError
  | some btd =>
      let v0 := timeConv value
      match applyScaleOffset field_profile v0 with
      | .error e => .error e
      | .ok v1 =>
          let v2 :=
            if v1.isStr ∧ base_type ≠ baseType "STRING" then
              resolveEnumString cat field_profile btd v1
            else v1
          if v2.isNone then
            write_field_bytes (.vInt btd.invalid) btd.size base_type
          else
            match packAttempt v2 btd with
            | .ok bs => .ok bs
            | .error e =>
                if caughtPack e then
                  write_field_bytes (.vInt btd.invalid) btd.size base_type
                else .error e

/-- The string serialization of Encoder._write_field_value: pad with NULs
    or truncate with a trailing NUL to exactly the declared size. -/
def padOrTruncate (bs : List ℕ) (size : ℕ) : List ℕ :=
  (if bs.length < size then bs ++ List.replicate (size - bs.length) 0
   else bs.take (size - 1) ++ [0]).take size

/-- Encoder._write_field_value: string fields (single or array), array
    fields element by element with invalid-padded missing elements, or a
    single scalar. -/
def write_field_value (cat : Catalog) (value : Value) (size : ℕ)
    (base_type : ℕ) (field_profile : Option FieldProfile) :
    Except PyExc (List ℕ) :=
  match btLookup base_type with
  | none => .error .keyError
  | some btd =>
      if base_type = baseType "STRING" then
        match value with
        | .vArr xs =>
            let concatenated := xs.foldl
              (fun acc item =>
                if item.isNone then acc else acc ++ strBytes (pyStr item) ++ [0]) []
            .ok (padOrTruncate concatenated size)
        | .vStr s => .ok (padOrTruncate (strBytes s) size)
        | _ => .ok (List.replicate size 0)
      else
        match value with
        | .vArr xs =>
            let num_elements := size / btd.size
            (List.range num_elements).foldlM
              (fun acc i =>
                match write_single_value cat (xs.getD i (.vInt btd.invalid))
                    base_type field_profile with
                | .ok bs => .ok (acc ++ bs)
                | .error e => .error e)
              ([] : List ℕ)
        | _ => write_single_value cat value base_type field_profile

/-- Minimum of an integer list (0 for the empty list, which no caller
    reaches: Python min() on an empty sequence would raise). -/
def listMin : List ℤ → ℤ
  | [] => 0
  | x :: xs => xs.foldl min x

/-- Maximum of an integer list (0 for the empty list). -/
def listMax : List ℤ → ℤ
  | [] => 0
  | x :: xs => xs.foldl max x

/-- The signed-first scalar int ladder shared by
    Encoder._determine_field_type_and_size (profile-less and fallback
    branches) and the value-based developer-field fallback: SINT8 is tried
    before UINT8 at every width. -/
def intLadderSigned8First (n : ℤ) : ℕ × ℕ :=
  if -128 ≤ n ∧ n ≤ 127 then (baseType "SINT8", 1)
  else if 0 ≤ n ∧ n ≤ 255 then (baseType "UINT8", 1)
  else if -32768 ≤ n ∧ n ≤ 32767 then (baseType "SINT16", 2)
  else if 0 ≤ n ∧ n ≤ 65535 then (baseType "UINT16", 2)
  else if -2147483648 ≤ n ∧ n ≤ 2147483647 then (baseType "SINT32", 4)
  else (baseType "UINT32", 4)

/-- The unsigned-first array-element ladder shared by the array branches of
    Encoder._determine_field_type_and_size and of
    Encoder._write_specific_message_definition (numeric-key arrays). -/
def elemLadderUnsigned8First (minv maxv : ℤ) : ℕ :=
  if 0 ≤ minv ∧ maxv ≤ 255 then baseType "UINT8"
  else if -128 ≤ minv ∧ maxv ≤ 127 then baseType "SINT8"
  else if 0 ≤ minv ∧ maxv ≤ 65535 then baseType "UINT16"
  else if -32768 ≤ minv ∧ maxv ≤ 32767 then baseType "SINT16"
  else if 0 ≤ minv ∧ maxv ≤ 4294967295 then baseType "UINT32"
  else baseType "SINT32"

/-- Element size of a base type per the fixed table. -/
def btSize (bt : ℕ) : ℕ := ((btLookup bt).getD ⟨1, 0xFF, 'B'⟩).size

/-- Encoder._determine_field_type_and_size.  The pre-analysis branch is
    inert (Encoder._analyze_field_types_across_messages returns the empty
    dict) and is therefore omitted; likewise the debug prints. -/
def determine_field_type_and_size (cat : Catalog)
    (field_profile : Option FieldProfile) (field_value : Value) : ℕ × ℕ :=
  match field_profile with
  | none =>
      -- developer fields: infer type from the single value
      match field_value with
      | .vStr s => (baseType "STRING", s.length + 1)
      | .vBool _ => (baseType "ENUM", 1)
      | .vInt n => intLadderSigned8First n
      | .vFloat _ => (baseType "FLOAT32", 4)
      | _ => (baseType "UINT8", 1)
  | some p =>
      -- convert enum string values to numbers first
      let v : Value := match field_value with
        | .vStr s =>
            match dictGet cat.types p.ftype with
            | some tbl =>
                match tbl.find? (fun e => e.2 = s) with
                | some e => Value.vInt e.1
                | none => Value.vInt 0
            | none => field_value
        | _ => field_value
      match dictGet FIELD_TYPE_TO_BASE_TYPE p.ftype with
      | some bt =>
          if p.ftype = "string" then
            (bt, match v with
              | .vStr s => s.length + 1
              | _ => 1)
          else
            (bt, match v with
              | .vArr xs => xs.length * btSize bt
              | _ => btSize bt)
      | none =>
          match v with
          | .vStr s => (baseType "STRING", min (s.length + 1) 255)
          | .vBool _ => (baseType "UINT8", 1)
          | .vFloat _ => (baseType "FLOAT32", 4)
          | .vInt n => intLadderSigned8First n
          | .vArr xs =>
              if xs.isEmpty then (baseType "UINT8", 1)
              else
                let all_elements := xs.filter (fun e => e.isInt || e.isFloat)
                if all_elements.isEmpty then (baseType "UINT8", xs.length * 1)
                else if all_elements.all Value.isInt then
                  let ints := all_elements.filterMap Value.asInt?
                  let elem := elemLadderUnsigned8First (listMin ints) (listMax ints)
                  (elem, xs.length * btSize elem)
                else
                  (baseType "FLOAT32", xs.length * btSize (baseType "FLOAT32"))
          | .vTime _ => (baseType "UINT32", 4)
          | _ => (baseType "UINT8", 1)

/-- The developer-field value collection of
    Encoder._write_developer_field_messages: for every instance's
    developer_fields dict, record the key, then append the value when it is
    not None. -/
def collectDevValues (messages : List Msg) : List (ℕ × List Value) :=
  messages.foldl
    (fun (acc : List (ℕ × List Value)) (message : Msg) =>
      match dictGet message (.name "developer_fields") with
      | some (.vDict entries) =>
          entries.foldl
            (fun (acc2 : List (ℕ × List Value)) (e : ℕ × Value) =>
              let acc3 := dictEnsure e.1 acc2
              if e.2.isNone then acc3 else dictAppendAt e.1 e.2 acc3)
            acc
      | _ => acc)
    []

/-- The regular-field value collection of
    Encoder._write_developer_field_messages: every non-None value of every
    field other than mesg_num and developer_fields. -/
def collectRegularValues (messages : List Msg) : List (FKey × List Value) :=
  messages.foldl
    (fun (acc : List (FKey × List Value)) (message : Msg) =>
      message.foldl
        (fun (acc2 : List (FKey × List Value)) (kv : FKey × Value) =>
          if kv.1 = FKey.name "mesg_num" ∨ kv.1 = FKey.name "developer_fields"
              ∨ kv.2.isNone then acc2
          else dictAppendAt kv.1 kv.2 acc2)
        acc)
    []

/-- The per-value contribution of the array-flattening step of the
    developer-field classification: list values contribute their non-None
    elements, other non-None values contribute themselves. -/
def devFlattenOne : Value → List Value
  | .vArr xs => xs.filter (fun e => !e.isNone)
  | v => if v.isNone then [] else [v]

/-- The array-flattening step of the developer-field classification in
    Encoder._write_developer_field_messages. -/
def flattenDevElements (values : List Value) : List Value :=
  values.foldl (fun (acc : List Value) v => acc ++ devFlattenOne v) []

/-- The per-id type classification of
    Encoder._write_developer_field_messages: min/max/homogeneity over every
    collected value of one developer id, flattening arrays to elements. -/
def devFieldPattern (values : List Value) : ℕ :=
  if values.isEmpty then 2
  else if values.any Value.isList then
    let all_elements := flattenDevElements values
    if all_elements.isEmpty then 2
    else if all_elements.all Value.isStr then 7
    else if all_elements.all Value.isInt then
      let ints := all_elements.filterMap Value.asInt?
      let minv := listMin ints
      let maxv := listMax ints
      if 0 ≤ minv then
        if maxv ≤ 255 then 2 else if maxv ≤ 65535 then 132 else 134
      else
        if -128 ≤ minv ∧ maxv ≤ 127 then 142
        else if -32768 ≤ minv ∧ maxv ≤ 32767 then 131
        else 133
    else if all_elements.any Value.isFloat then 136
    else 7
  else if values.all Value.isInt then
    let ints := values.filterMap Value.asInt?
    let minv := listMin ints
    let maxv := listMax ints
    if 0 ≤ minv then
      if maxv ≤ 255 then 2 else if maxv ≤ 65535 then 132 else 134
    else
      if -128 ≤ minv ∧ maxv ≤ 127 then 1
      else if -32768 ≤ minv ∧ maxv ≤ 32767 then 131
      else 133
  else if values.all Value.isStr then 7
  else if values.any Value.isFloat then 136
  else 7

/-- The developer-field pattern table of
    Encoder._write_developer_field_messages: one pattern per distinct
    developer id, over all its values across the message list. -/
def devFieldPatterns (messages : List Msg) : List (ℕ × ℕ) :=
  (collectDevValues messages).map (fun e => (e.1, devFieldPattern e.2))

/-- Encoder._get_global_message_number: digit strings parse directly,
    otherwise the catalog is scanned for a matching messages key. -/
def get_global_message_number (cat : Catalog) (msg_type : String) : Option ℕ :=
  match decDigits? msg_type.data with
  | some n => some n
  | none =>
      match cat.messages.find? (fun e => e.2.messagesKey = msg_type) with
      | some e => some e.1
      | none => none

/-- Key string of the synthetic field name of a dynamic profile entry. -/
def dynFieldName : FKey → String
  | .name s => "field_" ++ s
  | .num n => "field_" ++ natStr n

/-- Encoder._create_dynamic_profile: a provisional profile for a message
    type absent from the catalog, each field typed from the first value
    seen for its key.  Key iteration follows first-seen order (Python
    iterates a set; the order only affects dict layout, not lookups). -/
def create_dynamic_profile (message_type_num : ℕ) (messages : List Msg) :
    MsgProfile :=
  let pairs : List (FKey × Value) := messages.foldl
    (fun (acc : List (FKey × Value)) (message : Msg) =>
      message.foldl
        (fun (acc2 : List (FKey × Value)) (kv : FKey × Value) =>
          if kv.1 = FKey.name "mesg_num" then acc2
          else match dictGet acc2 kv.1 with
            | some _ => acc2
            | none => acc2 ++ [kv])
        acc)
    []
  let fields := pairs.map (fun kv =>
    let inferred : String × ℕ := match kv.2 with
      | .vStr s => ("string", (strBytes s).length + 1)
      | .vInt n =>
          if -128 ≤ n ∧ n ≤ 127 then ("sint8", 1)
          else if 0 ≤ n ∧ n ≤ 255 then ("uint8", 1)
          else if -32768 ≤ n ∧ n ≤ 32767 then ("sint16", 2)
          else if 0 ≤ n ∧ n ≤ 65535 then ("uint16", 2)
          else ("uint32", 4)
      | .vBool b =>
          -- Python bool passes the isinstance int check with value 0/1
          if b then ("sint8", 1) else ("sint8", 1)
      | .vFloat _ => ("float32", 4)
      | .vArr xs =>
          if (xs.headD Value.vNone).isInt && !xs.isEmpty then ("uint8", xs.length)
          else ("uint8", 4)
      | _ => ("uint8", 1)
    (kv.1, { num := kv.1, name := dynFieldName kv.1, ftype := inferred.1,
             scale := [1], offset := [0] : FieldProfile }))
  { name := "unknown_" ++ natStr message_type_num,
    messagesKey := natStr message_type_num,
    fields := fields }

/-- One emitted field definition: field id (numeric, or a raw string key
    only through degenerate dynamic profiles), declared byte size, base-type
    code, and for developer fields the original id kept for reverse
    mapping. -/
structure FieldDef where
  fieldId : FKey
  size : ℕ
  baseType : ℕ
  origDevId : Option ℕ := none
  deriving DecidableEq, Repr

/-- One stored local message definition (the value in
    Encoder._local_mesg_defs). -/
structure MsgDef where
  globalMsgNum : ℕ
  fieldDefs : List FieldDef
  fieldNameToId : List (FKey × FKey)
  deriving DecidableEq, Repr

/-- The encoder's mutable state: the data buffer, the local definition
    table, and the next local message number. -/
structure EncSt where
  buf : List ℕ
  defs : List (ℕ × MsgDef)
  next : ℕ
  deriving DecidableEq, Repr

/-- bytearray.append: one byte, ValueError outside [0, 255]. -/
def appendByteVal (n : ℕ) : Except PyExc (List ℕ) :=
  if n ≤ 255 then .ok [n] else .error .valueError

/-- bytearray.append of a field id: a raw string key (possible only through
    a degenerate dynamic profile) is a TypeError. -/
def appendFieldIdByte : FKey → Except PyExc (List ℕ)
  | .num n => appendByteVal n
  | .name _ => .error .typeError

/-- First non-None element (Python next(v for v in l if v is not None)). -/
def firstNonNone (xs : List Value) : Option Value := xs.find? (fun v => !v.isNone)

/-- Wrap a scalar into a one-element list, pass lists through (the
    `if not isinstance(x, list): x = [x]` idiom). -/
def asList : Value → List Value
  | .vArr xs => xs
  | v => [v]

/-- The signed-first min/max ladder of the numeric-key scalar branch of
    Encoder._write_specific_message_definition. -/
def pairLadderSigned8First (minv maxv : ℤ) : ℕ × ℕ :=
  if -128 ≤ minv ∧ maxv ≤ 127 then (baseType "SINT8", 1)
  else if 0 ≤ minv ∧ maxv ≤ 255 then (baseType "UINT8", 1)
  else if -32768 ≤ minv ∧ maxv ≤ 32767 then (baseType "SINT16", 2)
  else if 0 ≤ minv ∧ maxv ≤ 65535 then (baseType "UINT16", 2)
  else if -2147483648 ≤ minv ∧ maxv ≤ 2147483647 then (baseType "SINT32", 4)
  else (baseType "UINT32", 4)

/-- Maximum of a list of naturals (0 for the empty list). -/
def listMaxNat (l : List ℕ) : ℕ := l.foldl max 0

/-- The value-based developer-field fallback typing of
    Encoder._write_specific_message_definition (used when no pre-analyzed
    pattern is available for a developer id). -/
def devValueBasedDef (cat : Catalog) (dev_value : Value) : ℕ × ℕ :=
  match dev_value with
  | .vStr s => (baseType "STRING", (strBytes s).length + 1)
  | .vBool _ => (baseType "ENUM", 1)
  | .vInt n => intLadderSigned8First n
  | .vFloat _ => (baseType "FLOAT32", 4)
  | .vArr xs =>
      match firstNonNone xs with
      | some sample_element =>
          let eb := determine_field_type_and_size cat none sample_element
          (eb.1, xs.length * btSize eb.1)
      | none => (baseType "UINT8", 1)
  | _ => (baseType "UINT8", 1)

/-- The pattern-to-(base type, element size) decoding of the developer-field
    branch of Encoder._write_specific_message_definition, array variant
    (non-string patterns); pattern 142 stands for a SINT8 array. -/
def devPatternArrayElem (expected : ℕ) : ℕ × ℕ :=
  if expected = 1 then (baseType "SINT8", 1)
  else if expected = 2 then (baseType "UINT8", 1)
  else if expected = 131 then (baseType "SINT16", 2)
  else if expected = 132 then (baseType "UINT16", 2)
  else if expected = 133 then (baseType "SINT32", 4)
  else if expected = 134 then (baseType "UINT32", 4)
  else if expected = 136 then (baseType "FLOAT32", 4)
  else if expected = 142 then (baseType "SINT8", 1)
  else (baseType "UINT8", 1)

/-- The pattern-to-(base type, size) decoding for a scalar developer value
    (the single-value branch; note it has no 142 case). -/
def devPatternScalar (expected : ℕ) (dev_value : Value) : ℕ × ℕ :=
  if expected = 1 then (baseType "SINT8", 1)
  else if expected = 2 then (baseType "UINT8", 1)
  else if expected = 131 then (baseType "SINT16", 2)
  else if expected = 132 then (baseType "UINT16", 2)
  else if expected = 133 then (baseType "SINT32", 4)
  else if expected = 134 then (baseType "UINT32", 4)
  else if expected = 136 then (baseType "FLOAT32", 4)
  else if expected = 7 then
    match dev_value with
    | .vStr s => (baseType "STRING", (strBytes s).length + 1)
    | _ => (baseType "STRING", 1)
  else (baseType "UINT8", 1)

/-- Base type and size for one developer field entry of
    Encoder._write_specific_message_definition: the pre-analyzed pattern
    when available (an empty pattern dict is falsy in Python), else the
    value-based fallback. -/
def devEntryDef (cat : Catalog) (dev_field_patterns : Option (List (ℕ × ℕ)))
    (dev_id : ℕ) (dev_value : Value) : ℕ × ℕ :=
  let usePattern : Option ℕ := match dev_field_patterns with
    | some pats => if pats.isEmpty then none else dictGet pats dev_id
    | none => none
  match usePattern with
  | some expected =>
      match dev_value with
      | .vArr xs =>
          if expected = 7 then
            let total := xs.foldl
              (fun t sv => if sv.isNone then t
                else t + (strBytes (pyStr sv)).length + 1) 0
            (baseType "STRING", max total 1)
          else
            let be := devPatternArrayElem expected
            (be.1, xs.length * be.2)
      | _ => devPatternScalar expected dev_value
  | none => devValueBasedDef cat dev_value

/-- The developer_fields block of the definition construction loop of
    Encoder._write_specific_message_definition: every non-None developer
    value becomes a definition under the remapped id 240 + developer id,
    unless the remapped id would exceed 255 (then it is skipped with a
    warning). -/
def devFieldsBlock (cat : Catalog) (dev_field_patterns : Option (List (ℕ × ℕ)))
    (es : List (ℕ × Value)) (acc : List FieldDef × List (FKey × FKey)) :
    List FieldDef × List (FKey × FKey) :=
  es.foldl
    (fun (acc2 : List FieldDef × List (FKey × FKey)) e =>
      if e.2.isNone then acc2
      else
        let mapped := 240 + e.1
        if 255 < mapped then acc2
        else
          let bs := devEntryDef cat dev_field_patterns e.1 e.2
          (acc2.1 ++ [⟨.num mapped, bs.2, bs.1, some e.1⟩],
           dictInsert (.name ("developer_field_" ++ natStr e.1))
             (.num mapped) acc2.2))
    acc

/-- The field-definition construction loop of
    Encoder._write_specific_message_definition: string-named fields in
    sorted order (with the developer_fields block inline), then numeric-key
    fields in sorted order.  Returns the field definitions and the
    field-name-to-id map. -/
def buildFieldDefs (cat : Catalog) (msg_profile : MsgProfile)
    (message_fields : List FKey) (sample_message : Msg)
    (dev_field_patterns : Option (List (ℕ × ℕ))) :
    List FieldDef × List (FKey × FKey) :=
  let string_fields := sortStrings (message_fields.filterMap
    (fun k => match k with | .name s => some s | .num _ => none))
  let numeric_fields := sortNats (message_fields.filterMap
    (fun k => match k with | .num n => some n | .name _ => none))
  let afterStrings := string_fields.foldl
    (fun (acc : List FieldDef × List (FKey × FKey)) field_name =>
      if field_name = "developer_fields" then
        match dictGet sample_message (.name "developer_fields") with
        | some (.vDict es) => devFieldsBlock cat dev_field_patterns es acc
        | _ => acc
      else
        match msg_profile.fields.find? (fun fp => fp.2.name = field_name) with
        | none => acc
        | some fp =>
            let field_id := fp.2.num
            let nm := dictInsert (.name field_name) field_id acc.2
            let vOpt : Option Value := match dictGet sample_message (.name field_name) with
              | some v => if v.isNone then none else some v
              | none => none
            match vOpt with
            | some v =>
                match firstNonNone (asList v) with
                | none => (acc.1, nm)
                | some sample_value =>
                    let bs := determine_field_type_and_size cat (some fp.2) sample_value
                    (acc.1 ++ [⟨field_id, bs.2, bs.1, none⟩], nm)
            | none =>
                let bs : ℕ × ℕ :=
                  if fp.2.ftype = "string" then (baseType "STRING", 1)
                  else match dictGet BASE_TYPE fp.2.ftype with
                    | some bt => (bt, 1)
                    | none => (baseType "UINT8", 1)
                (acc.1 ++ [⟨field_id, bs.2, bs.1, none⟩], nm))
    (([], []) : List FieldDef × List (FKey × FKey))
  numeric_fields.foldl
    (fun (acc : List FieldDef × List (FKey × FKey)) field_num =>
      let vOpt : Option Value := match dictGet sample_message (.num field_num) with
        | some v => if v.isNone then none else some v
        | none => none
      match vOpt with
      | none => acc
      | some v =>
          let lst := asList v
          match firstNonNone lst with
          | none => acc
          | some sample_value =>
              if sample_value.isList then
                let all_array_values := lst.foldl
                  (fun (a : List Value) sv =>
                    match sv with
                    | .vArr ys => a ++ ys.filter (fun y => !y.isNone)
                    | _ => a)
                  []
                if all_array_values.isEmpty then acc
                else
                  let template_len := match sample_value with
                    | .vArr t => t.length
                    | _ => 0
                  let bt :=
                    if all_array_values.all Value.isInt then
                      let ints := all_array_values.filterMap Value.asInt?
                      elemLadderUnsigned8First (listMin ints) (listMax ints)
                    else baseType "FLOAT32"
                  (acc.1 ++ [⟨.num field_num, template_len * btSize bt, bt, none⟩],
                   dictInsert (.num field_num) (.num field_num) acc.2)
              else
                let bs : ℕ × ℕ :=
                  if lst.all Value.isInt then
                    let ints := lst.filterMap Value.asInt?
                    pairLadderSigned8First (listMin ints) (listMax ints)
                  else if lst.all Value.isFloat then (baseType "FLOAT32", 4)
                  else if lst.all Value.isStr then
                    (baseType "STRING",
                     listMaxNat (lst.map (fun s => match s with
                       | .vStr t => (strBytes t).length
                       | _ => 0)) + 1)
                  else (baseType "UINT32", 4)
                (acc.1 ++ [⟨.num field_num, bs.2, bs.1, none⟩],
                 dictInsert (.num field_num) (.num field_num) acc.2))
    afterStrings

/-- The validation-and-serialization loop at the end of
    Encoder._write_specific_message_definition: a base type outside the
    fixed table raises ValueError; each field definition is three appended
    bytes (id, size, base type). -/
def serializeFieldDefs (field_defs : List FieldDef) : Except PyExc (List ℕ) := do
  let countByte ← appendByteVal field_defs.length
  field_defs.foldlM
    (fun (bts : List ℕ) fd =>
      match btLookup fd.baseType with
      | none => .error .valueError
      | some _ => do
          let b1 ← appendFieldIdByte fd.fieldId
          let b2 ← appendByteVal fd.size
          let b3 ← appendByteVal fd.baseType
          .ok (bts ++ b1 ++ b2 ++ b3))
    countByte

/-- Encoder._write_specific_message_definition: definition record header,
    global number (struct.pack <H raises beyond 16 bits), field
    definitions, serialization, and the store into the local definition
    table. -/
def write_specific_message_definition (cat : Catalog)
    (local_msg_num global_msg_num : ℕ) (msg_profile : MsgProfile)
    (message_fields : List FKey) (sample_message : Msg)
    (dev_field_patterns : Option (List (ℕ × ℕ))) (st : EncSt) :
    Except PyExc EncSt := do
  if 65536 ≤ global_msg_num then .error .structError else
  let header : List ℕ := (0x40 ||| (local_msg_num % 16)) :: 0 :: 0 :: u16le global_msg_num
  let built := buildFieldDefs cat msg_profile message_fields sample_message
    dev_field_patterns
  let body ← serializeFieldDefs built.1
  .ok { st with
        buf := st.buf ++ header ++ body,
        defs := dictInsert local_msg_num
          ⟨global_msg_num, built.1, built.2⟩ st.defs }

/-- Developer-field detection of Encoder._write_message_data: a string
    field name of the shape developer_field_N. -/
def devNameSuffix (s : String) : Option String :=
  if "developer_field_".data.isPrefixOf s.data then
    some ⟨(s.data.reverse.takeWhile (fun c => c ≠ '_')).reverse⟩
  else none

/-- Encoder._write_message_data: one data record, every field in definition
    order, with invalid sentinels for absent fields. -/
def write_message_data (cat : Catalog) (local_msg_num : ℕ)
    (msg_profile : MsgProfile) (message : Msg) (st : EncSt) :
    Except PyExc EncSt := do
  let record_header := local_msg_num % 16
  match dictGet st.defs local_msg_num with
  | none => .error .keyError
  | some msg_def => do
      let bytes ← msg_def.fieldDefs.foldlM
        (fun (acc : List ℕ) fd => do
          let field_id := fd.fieldId
          let field_name : Option FKey :=
            (msg_def.fieldNameToId.find? (fun e => e.2 = field_id)).map (fun e => e.1)
          let devSuffix : Option String := match field_name with
            | some (.name s) => devNameSuffix s
            | _ => none
          match devSuffix with
          | some suffix =>
              match decDigits? suffix.data with
              | none => .error .valueError
              | some dev_field_id =>
                  let devVals : List (ℕ × Value) :=
                    match dictGet message (.name "developer_fields") with
                    | some (.vDict es) => es
                    | _ => []
                  match dictGet devVals dev_field_id with
                  | some field_value => do
                      let bs ← write_field_value cat field_value fd.size fd.baseType none
                      .ok (acc ++ bs)
                  | none =>
                      match btLookup fd.baseType with
                      | none => .error .keyError
                      | some btd => do
                          let bs ← write_field_bytes (.vInt btd.invalid) fd.size fd.baseType
                          .ok (acc ++ bs)
          | none =>
              let field_name2 : Option FKey := match field_name with
                | some fn => some fn
                | none =>
                    (message.find? (fun kv =>
                      match dictGet msg_profile.fields kv.1 with
                      | some fp => fp.num = field_id
                      | none => false)).map (fun kv => kv.1)
              let absent : Bool := match field_name2 with
                | none => true
                | some fn => (dictGet message fn).isNone
              if absent then
                match btLookup fd.baseType with
                | none => .error .keyError
                | some btd => do
                    let bs ← write_field_bytes (.vInt btd.invalid) fd.size fd.baseType
                    .ok (acc ++ bs)
              else
                match field_name2 with
                | none => .error .keyError
                | some fn =>
                    match dictGet message fn with
                    | none => .error .keyError
                    | some field_value => do
                        let field_profile : Option FieldProfile := match fn with
                          | .name s =>
                              (msg_profile.fields.find?
                                (fun e => e.2.name = s)).map (fun e => e.2)
                          | .num _ => none
                        let bs ← write_field_value cat field_value fd.size
                          fd.baseType field_profile
                        .ok (acc ++ bs))
        []
      .ok { st with buf := st.buf ++ record_header :: bytes }

/-- The slot allocation shared by Encoder._write_unified_messages and
    Encoder._write_field_description_messages: the next local number, or
    its value mod 16 once 16 is exceeded (a recycle, with a warning). -/
def allocSlot (next : ℕ) : ℕ := if 16 ≤ next then next % 16 else next

/-- The slot allocation of Encoder._write_developer_field_messages: below
    16 the next local number; at or above 16, the first slot in [0, 16) not
    already used by this message type's definition cache, else next mod
    16. -/
def allocSlotDev (next : ℕ) (used : List ℕ) : ℕ :=
  if 16 ≤ next then
    match (List.range 16).find? (fun t => !used.contains t) with
    | some t => t
    | none => next % 16
  else next

/-- Python min(c, v) against an int constant: non-numeric values raise
    TypeError. -/
def pyMinConst (c : ℤ) (v : Value) : Except PyExc Value :=
  match v.asNum? with
  | some q => .ok (if (c : ℚ) ≤ q then .vInt c else v)
  | none => .error .typeError

/-- Python max(c, v) against an int constant. -/
def pyMaxConst (c : ℤ) (v : Value) : Except PyExc Value :=
  match v.asNum? with
  | some q => .ok (if q ≤ (c : ℚ) then .vInt c else v)
  | none => .error .typeError

/-- The message field set (all keys except mesg_num), canonicalized as the
    Python frozenset. -/
def messageFieldSet (message : Msg) : List FKey :=
  canonSet ((message.map Prod.fst).filter (fun k => k ≠ FKey.name "mesg_num"))

/-- Encoder._write_field_description_messages: one definition per distinct
    exact field set of a field description message, cached by frozenset
    signature. -/
def write_field_description_messages (cat : Catalog) (global_msg_num : ℕ)
    (msg_profile : MsgProfile) (messages : List Msg) (st : EncSt) :
    Except PyExc EncSt := do
  let res ← messages.foldlM
    (fun (s : List (List FKey × ℕ) × EncSt) message => do
      let message_fields := messageFieldSet message
      match dictGet s.1 message_fields with
      | some local_num => do
          let st' ← write_message_data cat local_num msg_profile message s.2
          .ok (s.1, st')
      | none => do
          let local_num := allocSlot s.2.next
          let st1 := { s.2 with next := s.2.next + 1 }
          let cache := dictInsert message_fields local_num s.1
          let st2 ← write_specific_message_definition cat local_num global_msg_num
            msg_profile message_fields message none st1
          let st3 ← write_message_data cat local_num msg_profile message st2
          .ok (cache, st3))
    (([], st) : List (List FKey × ℕ) × EncSt)
  .ok res.2

/-- The cache signature of Encoder._write_developer_field_messages: the
    frozenset of fields, extended for messages carrying a developer dict by
    the sorted (developer id, expected pattern) tuple. -/
def devSigOf (patterns : List (ℕ × ℕ)) (message : Msg) :
    List FKey × Option (List (ℕ × ℕ)) :=
  let fields := messageFieldSet message
  match dictGet message (.name "developer_fields") with
  | some (.vDict es) =>
      (fields, some ((sortNats (es.map Prod.fst)).map
        (fun id => (id, (dictGet patterns id).getD 7))))
  | _ => (fields, none)

/-- The sample-message construction of
    Encoder._write_developer_field_messages: regular fields replaced by
    their full collected value lists, developer values replaced by
    representatives that fit the pre-analyzed SINT8/UINT8 patterns. -/
def buildDevSample (regular : List (FKey × List Value))
    (patterns : List (ℕ × ℕ)) (message : Msg) : Except PyExc Msg := do
  let s1 : Msg := regular.foldl
    (fun (m : Msg) e =>
      match dictGet m e.1 with
      | some _ => dictInsert e.1 (.vArr e.2) m
      | none => m)
    message
  match dictGet s1 (.name "developer_fields") with
  | none => .ok s1
  | some (.vDict es) => do
      let es' ← es.foldlM
        (fun (acc : List (ℕ × Value)) e => do
          let expected := (dictGet patterns e.1).getD 7
          let v' ←
            if expected = 1 then
              if e.2.isList then .ok (Value.vInt 50)
              else do
                let m ← pyMinConst 127 e.2
                pyMaxConst (-128) m
            else if expected = 2 then
              if e.2.isList then .ok (Value.vInt 200)
              else do
                let m ← pyMinConst 255 e.2
                pyMaxConst 0 m
            else .ok e.2
          .ok (acc ++ [(e.1, v')]))
        []
      .ok (dictInsert (.name "developer_fields") (.vDict es') s1)
  | some _ => .error .attributeError

/-- Encoder._write_developer_field_messages: corpus-wide developer-field
    pattern analysis, then one definition per distinct
    (field set, developer-type signature) combination. -/
def write_developer_field_messages (cat : Catalog) (global_msg_num : ℕ)
    (msg_profile : MsgProfile) (messages : List Msg) (st : EncSt) :
    Except PyExc EncSt := do
  let patterns := devFieldPatterns messages
  let regular := collectRegularValues messages
  let res ← messages.foldlM
    (fun (s : List ((List FKey × Option (List (ℕ × ℕ))) × ℕ) × EncSt) message => do
      let message_fields := messageFieldSet message
      let sig := devSigOf patterns message
      match dictGet s.1 sig with
      | some local_num => do
          let st' ← write_message_data cat local_num msg_profile message s.2
          .ok (s.1, st')
      | none => do
          let used := s.1.map Prod.snd
          let local_num := allocSlotDev s.2.next used
          let st1 := if 16 ≤ s.2.next then s.2
            else { s.2 with next := s.2.next + 1 }
          let cache := dictInsert sig local_num s.1
          let sample ← buildDevSample regular patterns message
          let st2 ← write_specific_message_definition cat local_num global_msg_num
            msg_profile message_fields sample (some patterns) st1
          let st3 ← write_message_data cat local_num msg_profile message st2
          .ok (cache, st3))
    (([], st) : List ((List FKey × Option (List (ℕ × ℕ))) × ℕ) × EncSt)
  .ok res.2

/-- The sample-value collection of Encoder._write_unified_messages: every
    non-None value of every field except mesg_num (developer_fields
    included; this path is only taken when no message carries a developer
    dict). -/
def collectUnifiedValues (messages : List Msg) : List (FKey × List Value) :=
  messages.foldl
    (fun (acc : List (FKey × List Value)) (message : Msg) =>
      message.foldl
        (fun (acc2 : List (FKey × List Value)) (kv : FKey × Value) =>
          if kv.1 = FKey.name "mesg_num" ∨ kv.2.isNone then acc2
          else dictAppendAt kv.1 kv.2 acc2)
        acc)
    []

/-- The (total, meaningful) occurrence counters of
    Encoder._write_unified_messages (the component-exclusion table in the
    source is empty, so its filter is the identity and is omitted). -/
def fieldValueCounts (messages : List Msg) : List (FKey × (ℕ × ℕ)) :=
  messages.foldl
    (fun (acc : List (FKey × (ℕ × ℕ))) (message : Msg) =>
      message.foldl
        (fun (acc2 : List (FKey × (ℕ × ℕ))) (kv : FKey × Value) =>
          if kv.1 = FKey.name "mesg_num" then acc2
          else
            let cur := (dictGet acc2 kv.1).getD (0, 0)
            dictInsert kv.1 (cur.1 + 1, if kv.2.isNone then cur.2 else cur.2 + 1) acc2)
        acc)
    []

/-- Encoder._write_unified_messages: one comprehensive definition covering
    the union of all fields with at least one meaningful value, then every
    message written against it. -/
def write_unified_messages (cat : Catalog) (global_msg_num : ℕ)
    (msg_profile : MsgProfile) (messages : List Msg) (st : EncSt) :
    Except PyExc EncSt := do
  let local_num := allocSlot st.next
  let st0 := { st with next := st.next + 1 }
  let sample := collectUnifiedValues messages
  let counts := fieldValueCounts messages
  let meaningful := canonSet ((counts.filter (fun e => 0 < e.2.2)).map Prod.fst)
  let filtered : Msg := sample.filterMap
    (fun e => if meaningful.contains e.1 then some (e.1, Value.vArr e.2) else none)
  let st1 ← write_specific_message_definition cat local_num global_msg_num
    msg_profile meaningful filtered none st0
  messages.foldlM
    (fun s message => write_message_data cat local_num msg_profile message s) st1

/-- Encoder._write_message_type: profile lookup (dynamic for unknown
    types) and dispatch between the field-description, developer-field and
    unified writers. -/
def write_message_type (cat : Catalog) (message_type_num : ℕ)
    (messages : List Msg) (st : EncSt) : Except PyExc EncSt :=
  let msg_profile := match dictGet cat.messages message_type_num with
    | some p => p
    | none => create_dynamic_profile message_type_num messages
  if message_type_num = 206 then
    write_field_description_messages cat message_type_num msg_profile messages st
  else if messages.any (fun m =>
      match dictGet m (.name "developer_fields") with
      | some (.vDict _) => true
      | _ => false) then
    write_developer_field_messages cat message_type_num msg_profile messages st
  else
    write_unified_messages cat message_type_num msg_profile messages st

/-- Encoder._write_messages: file_id messages first (when the key is
    present), then every other non-empty message type that resolves to a
    global number, in input order.  The pre-analysis table is empty by
    construction and carries no effect. -/
def write_messages (cat : Catalog) (msgs : List (String × List Msg))
    (st : EncSt) : Except PyExc EncSt := do
  let st1 ←
    match dictGet msgs "file_id_mesgs" with
    | some fileIdMsgs => write_message_type cat 0 fileIdMsgs st
    | none => .ok st
  msgs.foldlM
    (fun s e =>
      if e.1 ≠ "file_id_mesgs" ∧ !e.2.isEmpty then
        match get_global_message_number cat e.1 with
        | some n => write_message_type cat n e.2 s
        | none => .ok s
      else .ok s)
    st1

/-- struct.pack with format <H including its range check. -/
def pack16 (n : ℕ) : Except PyExc (List ℕ) :=
  if n < 65536 then .ok (u16le n) else .error .structError

/-- struct.pack with format <L including its range check. -/
def pack32 (n : ℕ) : Except PyExc (List ℕ) :=
  if n < 4294967296 then .ok (u32le n) else .error .structError

/-- Encoder._create_header: the 14-byte header (size, protocol version 2,
    profile version 21173 LE, data size LE, the literal ".FIT" marker, and
    the CRC-16 over the first 12 bytes). -/
def create_header (data_size : ℕ) : Except PyExc (List ℕ) := do
  let pv ← pack16 21173
  let ds ← pack32 data_size
  let h12 : List ℕ := 14 :: 0x02 :: pv ++ ds ++ [0x2E, 0x46, 0x49, 0x54]
  let hc ← pack16 (calculate_crc h12)
  .ok (h12 ++ hc)

/-- Encoder.write_to_bytes: reset buffer and definition table (the next
    local number is deliberately not reset by the source; a fresh Encoder
    starts it at 0), write all messages, then header and the trailing
    whole-file CRC. -/
def write_to_bytes (cat : Catalog) (messages : List (String × List Msg))
    (next0 : ℕ) : Except PyExc (List ℕ) := do
  let st ← write_messages cat messages ⟨[], [], next0⟩
  let header ← create_header st.buf.length
  let crc_bytes ← pack16 (calculate_crc (header ++ st.buf))
  .ok (header ++ st.buf ++ crc_bytes)

/-- Spec-side vocabulary for stating range properties: the smallest integer
    representable in an integer base type (0 for non-integer codes). -/
def btIntMin (bt : ℕ) : ℤ :=
  if bt = 1 then -128
  else if bt = 131 then -32768
  else if bt = 133 then -2147483648
  else if bt = 142 then -9223372036854775808
  else 0

/-- Spec-side vocabulary: the largest integer representable in an integer
    base type (0 for non-integer codes). -/
def btIntMax (bt : ℕ) : ℤ :=
  if bt = 1 then 127
  else if bt = 2 ∨ bt = 0 ∨ bt = 13 ∨ bt = 10 then 255
  else if bt = 131 then 32767
  else if bt = 132 ∨ bt = 139 then 65535
  else if bt = 133 then 2147483647
  else if bt = 134 ∨ bt = 140 then 4294967295
  else if bt = 142 then 9223372036854775807
  else if bt = 143 ∨ bt = 144 then 18446744073709551615
  else 0

/-- Spec-side vocabulary: whether a base-type code is a signed integer
    type. -/
def isSignedBT (bt : ℕ) : Bool :=
  bt = 1 ∨ bt = 131 ∨ bt = 133 ∨ bt = 142

/-- Spec-side vocabulary: the spec's type ladder
    SINT8, UINT8, SINT16, UINT16, SINT32, UINT32 as base-type codes. -/
def specLadder : List ℕ := [1, 2, 131, 132, 133, 134]

/-- A small concrete catalog used to instantiate theorems: a file_id
    message with an enum-typed field and a record message. -/
def exCatalog : Catalog :=
  { messages := [
      (0, { name := "file_id", messagesKey := "file_id_mesgs",
            fields := [(.num 0, ⟨.num 0, "type", "enum", [1], [0]⟩)] }),
      (20, { name := "record", messagesKey := "record_mesgs",
             fields := [(.num 3, ⟨.num 3, "heart_rate", "uint8", [1], [0]⟩)] })],
    types := [("enum", [(4, "activity")])] }

/-- A concrete field profile with scale 5 and offset 500 and a semantic
    type outside every table. -/
def exProfileScaled : FieldProfile := ⟨.num 78, "alt", "myscaled", [5], [500]⟩

/-- A concrete field profile with a semantic type outside
    FIELD_TYPE_TO_BASE_TYPE, exercising the value-shape fallback. -/
def exProfileWeird : FieldProfile := ⟨.num 1, "f", "weird", [1], [0]⟩

/-- A concrete string-typed catalog field profile. -/
def exProfileString : FieldProfile := ⟨.num 0, "name", "string", [1], [0]⟩

/-- A message profile with the single string field exProfileString. -/
def exStringMsgProfile : MsgProfile :=
  { name := "record", messagesKey := "record_mesgs",
    fields := [(.num 0, exProfileString)] }

/-- A message profile whose catalog field timestamp has numeric id 253,
    inside the developer remap window [240, 255]. -/
def exTimestampMsgProfile : MsgProfile :=
  { name := "rec", messagesKey := "r",
    fields := [(.num 253, ⟨.num 253, "timestamp", "weird", [1], [0]⟩)] }

/-- Spec-side vocabulary: the local-definition-table invariant of the
    claimed slot discipline: every bound local message number is a distinct
    slot in [0, 16). -/
def DefsInv (st : EncSt) : Prop :=
  (st.defs.map Prod.fst).Nodup ∧ ∀ k ∈ st.defs.map Prod.fst, k < 16

/-- C2: for a numeric field value v whose profile declares exactly one
    scale s and one offset o with s different from 1 or o different from 0,
    the encoder writes the raw integer round((v + o) * s) when o is
    nonzero and round(v * s) when o is zero: encoding the value under the
    profile equals encoding that raw integer with no profile.  In
    particular, scale 5 and offset 500 encode 1028.8 to raw 7644. -/
theorem C2_scale_offset_inversion :
    (∀ (cat : Catalog) (p : FieldProfile) (v : Value) (q s o : ℚ) (bt : ℕ),
      v.asNum? = some q → p.scale = [s] → p.offset = [o] → (s ≠ 1 ∨ o ≠ 0) →
      write_single_value cat v bt (some p) =
        write_single_value cat
          (.vInt (if o = 0 then pyRound (q * s) else pyRound ((q + o) * s)))
          bt none)
    ∧ applyScaleOffset (some exProfileScaled) (.vFloat (5144 / 5)) = .ok (.vInt 7644)
    ∧ pyRound ((5144 / 5 + 500) * 5) = 7644
    ∧ write_single_value exCatalog (.vFloat (5144 / 5)) 132 (some exProfileScaled) =
        .ok [220, 29] := by
  have hround : pyRound ((5144 / 5 + 500) * 5) = 7644 := by norm_num [pyRound]
  have main : ∀ (cat : Catalog) (p : FieldProfile) (v : Value) (q s o : ℚ) (bt : ℕ),
      v.asNum? = some q → p.scale = [s] → p.offset = [o] → (s ≠ 1 ∨ o ≠ 0) →
      write_single_value cat v bt (some p) =
        write_single_value cat
          (.vInt (if o = 0 then pyRound (q * s) else pyRound ((q + o) * s)))
          bt none := by
    intro cat p v q s o bt hq hs ho hso
    have hnone : v.isNone = false := by
      cases v <;> simp_all [Value.asNum?, Value.isNone]
    have hscale : applyScaleOffset (some p) v =
        .ok (.vInt (if o = 0 then pyRound (q * s) else pyRound ((q + o) * s))) := by
      simp only [applyScaleOffset]
      rw [hs, ho]
      simp only [if_pos hso, hnone, Bool.false_eq_true, if_false, hq]
    cases hbt : btLookup bt with
    | none => cases v <;> simp [write_single_value, hbt]
    | some btd =>
        cases v with
        | vBool b =>
            simp only [write_single_value, timeConv, hbt]
            rw [hscale]
            simp [applyScaleOffset, timeConv, Value.isStr, Value.isNone]
        | vInt n =>
            simp only [write_single_value, timeConv, hbt]
            rw [hscale]
            simp [applyScaleOffset, timeConv, Value.isStr, Value.isNone]
        | vFloat qq =>
            simp only [write_single_value, timeConv, hbt]
            rw [hscale]
            simp [applyScaleOffset, timeConv, Value.isStr, Value.isNone]
        | vNone => exact absurd hq (by simp [Value.asNum?])
        | vStr s2 => exact absurd hq (by simp [Value.asNum?])
        | vArr xs => exact absurd hq (by simp [Value.asNum?])
        | vDict xs => exact absurd hq (by simp [Value.asNum?])
        | vTime t => exact absurd hq (by simp [Value.asNum?])
  have hneq : ((5 : ℚ) ≠ 1 ∨ (500 : ℚ) ≠ 0) := by norm_num
  have h4 : write_single_value exCatalog (.vFloat (5144 / 5)) 132 (some exProfileScaled) =
      .ok [220, 29] := by
    have h := main exCatalog exProfileScaled (.vFloat (5144 / 5)) (5144 / 5) 5 500 132
      rfl rfl rfl hneq
    rw [h]
    have h500 : ¬ ((500 : ℚ) = 0) := by norm_num
    rw [if_neg h500, hround]
    rfl
  refine ⟨main, ?_, hround, h4⟩
  have h500 : ¬ ((500 : ℚ) = 0) := by norm_num
  simp only [applyScaleOffset, exProfileScaled]
  rw [if_pos hneq]
  simp only [Value.isNone, Bool.false_eq_true, if_false, Value.asNum?]
  rw [if_neg h500, hround]

/-- Witness for C2: the inversion theorem applied at scale 5, offset 500,
    input 1028.8 over UINT16. -/
theorem C2_witness :
    (Value.vFloat (5144 / 5)).asNum? = some (5144 / 5) ∧
    exProfileScaled.scale = [5] ∧ exProfileScaled.offset = [500] ∧
    ((5 : ℚ) ≠ 1 ∨ (500 : ℚ) ≠ 0) ∧
    write_single_value exCatalog (.vFloat (5144 / 5)) 132 (some exProfileScaled) =
      write_single_value exCatalog
        (.vInt (if (500 : ℚ) = 0 then pyRound (5144 / 5 * 5)
                else pyRound ((5144 / 5 + 500) * 5))) 132 none :=
  ⟨rfl, rfl, rfl, by norm_num,
   C2_scale_offset_inversion.1 exCatalog exProfileScaled (.vFloat (5144 / 5))
     (5144 / 5) 5 500 132 rfl rfl rfl (by norm_num)⟩

/-- C3 counterexample: the observed value 100 is non-negative, yet the
    shape-based ladder of Encoder._determine_field_type_and_size chooses the
    signed type SINT8 for it, not UINT8: the ladder tries SINT8 before
    UINT8, so a signed type is chosen without any negative observed
    value. -/
theorem C3_counterexample :
    determine_field_type_and_size exCatalog (some exProfileWeird) (.vInt 100) =
      (baseType "SINT8", 1) ∧
    isSignedBT (baseType "SINT8") = true ∧ (0 : ℤ) ≤ 100 ∧
    baseType "SINT8" ≠ baseType "UINT8" :=
  ⟨rfl, rfl, by decide, by decide⟩

/-- C3 amended: for an integer value in the encodable span, the ladder of
    Encoder._determine_field_type_and_size picks a type that covers the
    value with the narrowest width on the ladder, and any negative value
    gets a signed type; but signedness is not reserved for negative values:
    every value in [-128, 127] gets SINT8, even when non-negative.  The
    fallback branch of _determine_field_type_and_size computes exactly this
    ladder. -/
theorem C3_ladder_properties :
    ∀ n : ℤ, -2147483648 ≤ n → n < 4294967296 →
      btIntMin (intLadderSigned8First n).1 ≤ n ∧
      n ≤ btIntMax (intLadderSigned8First n).1 ∧
      (intLadderSigned8First n).2 = btSize (intLadderSigned8First n).1 ∧
      (n < 0 → isSignedBT (intLadderSigned8First n).1 = true) ∧
      (-128 ≤ n ∧ n ≤ 127 → (intLadderSigned8First n).1 = baseType "SINT8") ∧
      (∀ t ∈ specLadder, btIntMin t ≤ n ∧ n ≤ btIntMax t →
        btSize (intLadderSigned8First n).1 ≤ btSize t) ∧
      (∀ (cat : Catalog) (p : FieldProfile),
        dictGet cat.types p.ftype = none →
        dictGet FIELD_TYPE_TO_BASE_TYPE p.ftype = none →
        determine_field_type_and_size cat (some p) (.vInt n) =
          intLadderSigned8First n) := by
  intro n h1 h2
  have hdet : ∀ (cat : Catalog) (p : FieldProfile),
      dictGet cat.types p.ftype = none →
      dictGet FIELD_TYPE_TO_BASE_TYPE p.ftype = none →
      determine_field_type_and_size cat (some p) (.vInt n) =
        intLadderSigned8First n := by
    intro cat p hty htb
    simp only [determine_field_type_and_size, hty, htb]
  have eS8 : baseType "SINT8" = 1 := rfl
  have eU8 : baseType "UINT8" = 2 := rfl
  have eS16 : baseType "SINT16" = 131 := rfl
  have eU16 : baseType "UINT16" = 132 := rfl
  have eS32 : baseType "SINT32" = 133 := rfl
  have eU32 : baseType "UINT32" = 134 := rfl
  have z1 : btSize 1 = 1 := rfl
  have z2 : btSize 2 = 1 := rfl
  have z3 : btSize 131 = 2 := rfl
  have z4 : btSize 132 = 2 := rfl
  have z5 : btSize 133 = 4 := rfl
  have z6 : btSize 134 = 4 := rfl
  have m1 : btIntMin 1 = -128 := rfl
  have m2 : btIntMin 2 = 0 := rfl
  have m3 : btIntMin 131 = -32768 := rfl
  have m4 : btIntMin 132 = 0 := rfl
  have m5 : btIntMin 133 = -2147483648 := rfl
  have m6 : btIntMin 134 = 0 := rfl
  have x1 : btIntMax 1 = 127 := rfl
  have x2 : btIntMax 2 = 255 := rfl
  have x3 : btIntMax 131 = 32767 := rfl
  have x4 : btIntMax 132 = 65535 := rfl
  have x5 : btIntMax 133 = 2147483647 := rfl
  have x6 : btIntMax 134 = 4294967295 := rfl
  have hmin : btIntMin (intLadderSigned8First n).1 ≤ n := by
    unfold intLadderSigned8First
    split_ifs <;>
      simp only [eS8, eU8, eS16, eU16, eS32, eU32, m1, m2, m3, m4, m5, m6] <;>
      omega
  have hmax : n ≤ btIntMax (intLadderSigned8First n).1 := by
    unfold intLadderSigned8First
    split_ifs <;>
      simp only [eS8, eU8, eS16, eU16, eS32, eU32, x1, x2, x3, x4, x5, x6] <;>
      omega
  have hsz : (intLadderSigned8First n).2 = btSize (intLadderSigned8First n).1 := by
    unfold intLadderSigned8First
    split_ifs <;> rfl
  have hsgn : n < 0 → isSignedBT (intLadderSigned8First n).1 = true := by
    intro hneg
    unfold intLadderSigned8First
    split_ifs with c1 c2 c3 c4 c5
    · rfl
    · exact (by omega : False).elim
    · rfl
    · exact (by omega : False).elim
    · rfl
    · exact (by omega : False).elim
  have hs8 : -128 ≤ n ∧ n ≤ 127 → (intLadderSigned8First n).1 = baseType "SINT8" := by
    intro hr
    unfold intLadderSigned8First
    rw [if_pos hr]
  have hnarrow : ∀ t ∈ specLadder, btIntMin t ≤ n ∧ n ≤ btIntMax t →
      btSize (intLadderSigned8First n).1 ≤ btSize t := by
    intro t ht hr
    simp only [specLadder, List.mem_cons, List.not_mem_nil, or_false] at ht
    have hw : btSize (intLadderSigned8First n).1 ≤ btSize t := by
      rcases ht with h | h | h | h | h | h <;> subst h <;>
        simp only [z1, z2, z3, z4, z5, z6, m1, m2, m3, m4, m5, m6,
          x1, x2, x3, x4, x5, x6] at hr <;>
        · unfold intLadderSigned8First
          split_ifs with c1 c2 c3 c4 c5 <;>
            simp only [eS8, eU8, eS16, eU16, eS32, eU32, z1, z2, z3, z4, z5, z6] <;>
            omega
    exact hw
  exact ⟨hmin, hmax, hsz, hsgn, hs8, hnarrow, hdet⟩

/-- Witness for C3: the amended ladder theorem applied at the observed
    value 100. -/
theorem C3_witness :
    (-2147483648 ≤ (100 : ℤ)) ∧ ((100 : ℤ) < 4294967296) ∧
    (btIntMin (intLadderSigned8First 100).1 ≤ 100 ∧
     (100 : ℤ) ≤ btIntMax (intLadderSigned8First 100).1 ∧
     (intLadderSigned8First 100).2 = btSize (intLadderSigned8First 100).1 ∧
     ((100 : ℤ) < 0 → isSignedBT (intLadderSigned8First 100).1 = true) ∧
     (-128 ≤ (100 : ℤ) ∧ (100 : ℤ) ≤ 127 →
        (intLadderSigned8First 100).1 = baseType "SINT8") ∧
     (∀ t ∈ specLadder, btIntMin t ≤ 100 ∧ (100 : ℤ) ≤ btIntMax t →
        btSize (intLadderSigned8First 100).1 ≤ btSize t) ∧
     (∀ (cat : Catalog) (p : FieldProfile),
        dictGet cat.types p.ftype = none →
        dictGet FIELD_TYPE_TO_BASE_TYPE p.ftype = none →
        determine_field_type_and_size cat (some p) (.vInt 100) =
          intLadderSigned8First 100)) :=
  ⟨by decide, by decide, C3_ladder_properties 100 (by decide) (by decide)⟩

/-- C1 counterexample: a message type with no developer fields whose
    string field takes values "ab" then "abcdef" across two instances
    gets a definition sized 3 (from the first collected value only), while
    the later value needs width 7; the second data record is truncated to
    "ab" plus NUL.  The declared width is therefore not computed from the
    union of the field's values across all instances. -/
theorem C1_counterexample :
    (write_unified_messages exCatalog 20 exStringMsgProfile
        [[(.name "name", .vStr "ab")], [(.name "name", .vStr "abcdef")]]
        ⟨[], [], 0⟩).map (fun st => st.buf) =
      .ok [64, 0, 0, 20, 0, 1, 0, 3, 7, 0, 97, 98, 0, 0, 97, 98, 0] ∧
    (buildFieldDefs exCatalog exStringMsgProfile [.name "name"]
        [(.name "name", .vArr [.vStr "ab", .vStr "abcdef"])] none).1 =
      [⟨.num 0, 3, 7, none⟩] ∧
    collectUnifiedValues
        [[(.name "name", .vStr "ab")], [(.name "name", .vStr "abcdef")]] =
      [(.name "name", [.vStr "ab", .vStr "abcdef"])] ∧
    (determine_field_type_and_size exCatalog (some exProfileString)
        (.vStr "abcdef")).2 = 7 ∧
    ¬ ((7 : ℕ) ≤ 3) := by
  refine ⟨?_, ?_, ?_, ?_, ?_⟩
  · rfl
  · rfl
  · rfl
  · rfl
  · decide

/-- C1 amended: for a catalog-resolved string-keyed field, the byte width
    and base type in the emitted definition are computed by
    _determine_field_type_and_size from the FIRST non-None collected value
    alone; the remaining collected values (the rest of the union across
    instances) do not influence the declared width. -/
theorem C1_first_value_width :
    ∀ (cat : Catalog) (prof : MsgProfile) (s : String) (fp : FKey × FieldProfile)
      (v0 : Value) (vs : List Value),
      s ≠ "developer_fields" →
      prof.fields.find? (fun e => e.2.name = s) = some fp →
      v0.isNone = false →
      (buildFieldDefs cat prof [.name s] [(.name s, .vArr (v0 :: vs))] none).1 =
        [⟨fp.2.num, (determine_field_type_and_size cat (some fp.2) v0).2,
          (determine_field_type_and_size cat (some fp.2) v0).1, none⟩] := by
  intro cat prof s fp v0 vs hdev hfind hv0
  simp only [buildFieldDefs, List.filterMap, List.foldl, sortStrings, sortBy,
    insertBy, sortNats]
  rw [if_neg hdev, hfind]
  cases v0
  · exact absurd hv0 (by simp [Value.isNone])
  all_goals simp [dictGet, asList, firstNonNone, List.find?, Value.isNone]

/-- Witness for C1: the first-value-width theorem applied at the string
    field with collected values "ab" then "abcdef". -/
theorem C1_witness :
    ("name" ≠ "developer_fields") ∧
    exStringMsgProfile.fields.find? (fun e => e.2.name = "name") =
      some (.num 0, exProfileString) ∧
    (Value.vStr "ab").isNone = false ∧
    (buildFieldDefs exCatalog exStringMsgProfile [.name "name"]
        [(.name "name", .vArr (Value.vStr "ab" :: [Value.vStr "abcdef"]))] none).1 =
      [⟨exProfileString.num,
        (determine_field_type_and_size exCatalog (some exProfileString) (.vStr "ab")).2,
        (determine_field_type_and_size exCatalog (some exProfileString) (.vStr "ab")).1,
        none⟩] :=
  ⟨by decide, rfl, rfl,
   C1_first_value_width exCatalog exStringMsgProfile "name" (.num 0, exProfileString)
     (.vStr "ab") [.vStr "abcdef"] (by decide) rfl rfl⟩

/-- The flatten fold appends its per-value contributions. -/
theorem flattenDevElements_cons (v : Value) (vs : List Value) :
    flattenDevElements (v :: vs) = devFlattenOne v ++ flattenDevElements vs := by
  have aux : ∀ (l : List Value) (acc : List Value),
      l.foldl (fun (a : List Value) x => a ++ devFlattenOne x) acc =
        acc ++ flattenDevElements l := by
    intro l
    induction l with
    | nil => intro acc; simp [flattenDevElements]
    | cons x xs ih =>
        intro acc
        simp only [flattenDevElements, List.foldl, List.nil_append] at *
        rw [ih (acc ++ devFlattenOne x), ih (devFlattenOne x), List.append_assoc]
  simp only [flattenDevElements, List.foldl, List.nil_append]
  rw [aux vs (devFlattenOne v)]
  simp [flattenDevElements]

/-- Every flattened element of an int/int-array corpus is an int. -/
theorem flatten_shapes (vals : List Value)
    (h1 : ∀ v ∈ vals, (∃ n, v = Value.vInt n) ∨
      ∃ xs, v = Value.vArr xs ∧ ∀ x ∈ xs, (∃ n, x = Value.vInt n) ∨ x = Value.vNone) :
    ∀ x ∈ flattenDevElements vals, ∃ n, x = Value.vInt n := by
  induction vals with
  | nil => simp [flattenDevElements]
  | cons v vs ih =>
      intro x hx
      rw [flattenDevElements_cons] at hx
      rcases List.mem_append.mp hx with hmem | hmem
      · rcases h1 v (by simp) with ⟨n, rfl⟩ | ⟨xs, rfl, hxs⟩
        · simp [devFlattenOne, Value.isNone] at hmem
          exact ⟨n, hmem⟩
        · simp only [devFlattenOne, List.mem_filter] at hmem
          rcases hxs x hmem.1 with ⟨n, rfl⟩ | rfl
          · exact ⟨n, rfl⟩
          · simp [Value.isNone] at hmem
      · exact ih (fun v hv => h1 v (List.mem_cons_of_mem _ hv)) x hmem

/-- Flattening is the identity on a corpus of plain ints. -/
theorem flatten_id (vals : List Value)
    (h : ∀ v ∈ vals, ∃ n, v = Value.vInt n) :
    flattenDevElements vals = vals := by
  induction vals with
  | nil => simp [flattenDevElements]
  | cons v vs ih =>
      rw [flattenDevElements_cons]
      rcases h v (by simp) with ⟨n, rfl⟩
      rw [ih (fun v hv => h v (List.mem_cons_of_mem _ hv))]
      simp [devFlattenOne, Value.isNone]

/-- listMin bounds every member from below. -/
theorem listMin_le_of_mem (l : List ℤ) (x : ℤ) (hx : x ∈ l) : listMin l ≤ x := by
  have aux : ∀ (t : List ℤ) (a : ℤ),
      t.foldl min a ≤ a ∧ ∀ y ∈ t, t.foldl min a ≤ y := by
    intro t
    induction t with
    | nil => intro a; simp
    | cons b bs ih =>
        intro a
        have h1 := ih (min a b)
        refine ⟨le_trans h1.1 (min_le_left a b), ?_⟩
        intro y hy
        rcases List.mem_cons.mp hy with rfl | hy2
        · exact le_trans h1.1 (min_le_right a y)
        · exact h1.2 y hy2
  match l, hx with
  | a :: t, hx =>
      rcases List.mem_cons.mp hx with rfl | hx2
      · exact (aux t x).1
      · exact (aux t a).2 x hx2

/-- listMax bounds every member from above. -/
theorem le_listMax_of_mem (l : List ℤ) (x : ℤ) (hx : x ∈ l) : x ≤ listMax l := by
  have aux : ∀ (t : List ℤ) (a : ℤ),
      a ≤ t.foldl max a ∧ ∀ y ∈ t, y ≤ t.foldl max a := by
    intro t
    induction t with
    | nil => intro a; simp
    | cons b bs ih =>
        intro a
        have h1 := ih (max a b)
        refine ⟨le_trans (le_max_left a b) h1.1, ?_⟩
        intro y hy
        rcases List.mem_cons.mp hy with rfl | hy2
        · exact le_trans (le_max_right a y) h1.1
        · exact h1.2 y hy2
  match l, hx with
  | a :: t, hx =>
      rcases List.mem_cons.mp hx with rfl | hx2
      · exact (aux t x).1
      · exact (aux t a).2 x hx2

/-- dictGet through a value-mapping of an association list. -/
theorem dictGet_map {κ α β : Type} [DecidableEq κ] (f : α → β)
    (l : List (κ × α)) (k : κ) :
    dictGet (l.map (fun e => (e.1, f e.2))) k = (dictGet l k).map f := by
  induction l with
  | nil => simp [dictGet]
  | cons e rest ih =>
      simp only [List.map, dictGet]
      split_ifs with h
      · rfl
      · exact ih

/-- C4: for every distinct developer id of a message type, the pattern
    table classifies the values collected across every instance (arrays
    flattened to elements); for an all-int corpus whose span fits an
    encodable range, the base type decoded from the chosen pattern covers
    every collected element, so one width serves every occurrence.  In
    particular a corpus spanning [-100, 1000] gets SINT16, which holds the
    whole span. -/
theorem C4_dev_corpus_typing :
    (∀ (messages : List Msg) (dev_id : ℕ) (vals : List Value),
      dictGet (collectDevValues messages) dev_id = some vals →
      (∀ v ∈ vals, (∃ n, v = Value.vInt n) ∨
        ∃ xs, v = Value.vArr xs ∧
          ∀ x ∈ xs, (∃ n, x = Value.vInt n) ∨ x = Value.vNone) →
      (flattenDevElements vals).filterMap Value.asInt? ≠ [] →
      ((0 ≤ listMin ((flattenDevElements vals).filterMap Value.asInt?) ∧
          listMax ((flattenDevElements vals).filterMap Value.asInt?) ≤ 4294967295) ∨
        (-2147483648 ≤ listMin ((flattenDevElements vals).filterMap Value.asInt?) ∧
          listMax ((flattenDevElements vals).filterMap Value.asInt?) ≤ 2147483647)) →
      dictGet (devFieldPatterns messages) dev_id = some (devFieldPattern vals) ∧
      ∀ x ∈ (flattenDevElements vals).filterMap Value.asInt?,
        btIntMin (devPatternArrayElem (devFieldPattern vals)).1 ≤ x ∧
        x ≤ btIntMax (devPatternArrayElem (devFieldPattern vals)).1)
    ∧ devFieldPattern [.vInt (-100), .vInt 1000] = 131
    ∧ (devPatternArrayElem 131).1 = baseType "SINT16"
    ∧ btIntMin 131 ≤ -100 ∧ (1000 : ℤ) ≤ btIntMax 131 := by
  refine ⟨?_, rfl, rfl, by decide, by decide⟩
  intro messages dev_id vals hget h1 hne hspan
  constructor
  · simp only [devFieldPatterns]
    rw [dictGet_map devFieldPattern (collectDevValues messages) dev_id, hget]
    rfl
  · have d2 : (devPatternArrayElem 2).1 = 2 := rfl
    have d132 : (devPatternArrayElem 132).1 = 132 := rfl
    have d134 : (devPatternArrayElem 134).1 = 134 := rfl
    have d142 : (devPatternArrayElem 142).1 = 1 := rfl
    have d131 : (devPatternArrayElem 131).1 = 131 := rfl
    have d133 : (devPatternArrayElem 133).1 = 133 := rfl
    have d1 : (devPatternArrayElem 1).1 = 1 := rfl
    have m1 : btIntMin 1 = -128 := rfl
    have m2 : btIntMin 2 = 0 := rfl
    have m3 : btIntMin 131 = -32768 := rfl
    have m4 : btIntMin 132 = 0 := rfl
    have m5 : btIntMin 133 = -2147483648 := rfl
    have m6 : btIntMin 134 = 0 := rfl
    have x1 : btIntMax 1 = 127 := rfl
    have x2 : btIntMax 2 = 255 := rfl
    have x3 : btIntMax 131 = 32767 := rfl
    have x4 : btIntMax 132 = 65535 := rfl
    have x5 : btIntMax 133 = 2147483647 := rfl
    have x6 : btIntMax 134 = 4294967295 := rfl
    have hshapes := flatten_shapes vals h1
    have hflat_ne : flattenDevElements vals ≠ [] := by
      intro h
      rw [h] at hne
      simp at hne
    have hflat_emp : (flattenDevElements vals).isEmpty = false := by
      cases hF : flattenDevElements vals with
      | nil => exact absurd hF hflat_ne
      | cons a t => rfl
    have hvals_ne : vals ≠ [] := by
      intro h
      rw [h] at hflat_ne
      exact hflat_ne rfl
    have hemp : vals.isEmpty = false := by
      cases hV : vals with
      | nil => exact absurd hV hvals_ne
      | cons a t => rfl
    have hallint : (flattenDevElements vals).all Value.isInt = true := by
      rw [List.all_eq_true]
      intro y hy
      rcases hshapes y hy with ⟨n, rfl⟩
      rfl
    have hnotstr : (flattenDevElements vals).all Value.isStr = false := by
      obtain ⟨y, hy⟩ := List.exists_mem_of_ne_nil _ hflat_ne
      rcases hshapes y hy with ⟨n, rfl⟩
      cases hstr : (flattenDevElements vals).all Value.isStr with
      | false => rfl
      | true =>
          have := List.all_eq_true.mp hstr _ hy
          simp [Value.isStr] at this
    intro x hx
    have hxm : listMin ((flattenDevElements vals).filterMap Value.asInt?) ≤ x :=
      listMin_le_of_mem _ x hx
    have hxM : x ≤ listMax ((flattenDevElements vals).filterMap Value.asInt?) :=
      le_listMax_of_mem _ x hx
    by_cases harr : vals.any Value.isList = true
    · have hpat : devFieldPattern vals =
          (if 0 ≤ listMin ((flattenDevElements vals).filterMap Value.asInt?) then
            if listMax ((flattenDevElements vals).filterMap Value.asInt?) ≤ 255 then 2
            else if listMax ((flattenDevElements vals).filterMap Value.asInt?) ≤ 65535 then 132
            else 134
          else
            if -128 ≤ listMin ((flattenDevElements vals).filterMap Value.asInt?) ∧
                listMax ((flattenDevElements vals).filterMap Value.asInt?) ≤ 127 then 142
            else if -32768 ≤ listMin ((flattenDevElements vals).filterMap Value.asInt?) ∧
                listMax ((flattenDevElements vals).filterMap Value.asInt?) ≤ 32767 then 131
            else 133) := by
        simp only [devFieldPattern, hemp, Bool.false_eq_true, if_false, harr, if_true,
          hflat_emp, hnotstr, hallint]
      rw [hpat]
      split_ifs with c1 c2 c3 c4 c5 <;>
        simp only [d2, d132, d134, d142, d131, d133,
          m1, m2, m3, m4, m5, m6, x1, x2, x3, x4, x5, x6] <;>
        omega
    · have hvals_int : ∀ v ∈ vals, ∃ n, v = Value.vInt n := by
        intro v hv
        rcases h1 v hv with ⟨n, rfl⟩ | ⟨xs, rfl, _⟩
        · exact ⟨n, rfl⟩
        · exact absurd (List.any_eq_true.mpr ⟨Value.vArr xs, hv, rfl⟩) harr
      have hid : flattenDevElements vals = vals := flatten_id vals hvals_int
      have hvallint : vals.all Value.isInt = true := by
        rw [List.all_eq_true]
        intro y hy
        rcases hvals_int y hy with ⟨n, rfl⟩
        rfl
      have harrF : vals.any Value.isList = false := by
        cases hA : vals.any Value.isList with
        | false => rfl
        | true => exact absurd hA harr
      have hpat : devFieldPattern vals =
          (if 0 ≤ listMin (vals.filterMap Value.asInt?) then
            if listMax (vals.filterMap Value.asInt?) ≤ 255 then 2
            else if listMax (vals.filterMap Value.asInt?) ≤ 65535 then 132
            else 134
          else
            if -128 ≤ listMin (vals.filterMap Value.asInt?) ∧
                listMax (vals.filterMap Value.asInt?) ≤ 127 then 1
            else if -32768 ≤ listMin (vals.filterMap Value.asInt?) ∧
                listMax (vals.filterMap Value.asInt?) ≤ 32767 then 131
            else 133) := by
        simp only [devFieldPattern, hemp, Bool.false_eq_true, if_false, harrF,
          hvallint, if_true]
      rw [hid] at hxm hxM hspan
      rw [hpat]
      split_ifs with c1 c2 c3 c4 c5 <;>
        simp only [d1, d2, d132, d134, d131, d133,
          m1, m2, m3, m4, m5, m6, x1, x2, x3, x4, x5, x6] <;>
        omega

/-- Witness for C4: the corpus-typing theorem applied to a two-message
    corpus whose developer field 0 spans [-100, 1000]. -/
theorem C4_witness :
    dictGet (collectDevValues
        [[(.name "developer_fields", .vDict [(0, .vInt (-100))])],
         [(.name "developer_fields", .vDict [(0, .vInt 1000)])]]) 0 =
      some [.vInt (-100), .vInt 1000] ∧
    ((flattenDevElements [Value.vInt (-100), Value.vInt 1000]).filterMap
        Value.asInt? ≠ []) ∧
    (dictGet (devFieldPatterns
        [[(.name "developer_fields", .vDict [(0, .vInt (-100))])],
         [(.name "developer_fields", .vDict [(0, .vInt 1000)])]]) 0 =
      some (devFieldPattern [.vInt (-100), .vInt 1000]) ∧
     ∀ x ∈ (flattenDevElements [Value.vInt (-100), Value.vInt 1000]).filterMap
         Value.asInt?,
       btIntMin (devPatternArrayElem
         (devFieldPattern [Value.vInt (-100), Value.vInt 1000])).1 ≤ x ∧
       x ≤ btIntMax (devPatternArrayElem
         (devFieldPattern [Value.vInt (-100), Value.vInt 1000])).1) :=
  ⟨rfl, by decide,
   C4_dev_corpus_typing.1
     [[(.name "developer_fields", .vDict [(0, .vInt (-100))])],
      [(.name "developer_fields", .vDict [(0, .vInt 1000)])]]
     0 [.vInt (-100), .vInt 1000] rfl
     (by
       intro v hv
       rcases List.mem_cons.mp hv with rfl | hv2
       · exact Or.inl ⟨-100, rfl⟩
       · rcases List.mem_cons.mp hv2 with rfl | hv3
         · exact Or.inl ⟨1000, rfl⟩
         · cases hv3)
     (by decide) (by decide)⟩

/-- The developer_fields block only appends, and every appended entry
    comes from a non-None developer value with remapped id 240 + d within
    the byte range. -/
theorem devFieldsBlock_char (cat : Catalog) (pats : Option (List (ℕ × ℕ))) :
    ∀ (es : List (ℕ × Value)) (acc : List FieldDef × List (FKey × FKey)),
      ∃ app, (devFieldsBlock cat pats es acc).1 = acc.1 ++ app ∧
        ∀ fd ∈ app, ∃ d v, (d, v) ∈ es ∧ v.isNone = false ∧ ¬ 255 < 240 + d ∧
          fd.fieldId = FKey.num (240 + d) ∧ fd.origDevId = some d := by
  intro es
  induction es with
  | nil =>
      intro acc
      exact ⟨[], by simp [devFieldsBlock], by simp⟩
  | cons e rest ih =>
      intro acc
      obtain ⟨d', v'⟩ := e
      by_cases hnone : v'.isNone = true
      · have hstep : devFieldsBlock cat pats ((d', v') :: rest) acc =
            devFieldsBlock cat pats rest acc := by
          simp [devFieldsBlock, List.foldl, hnone]
        obtain ⟨app, happ, hprop⟩ := ih acc
        refine ⟨app, by rw [hstep, happ], ?_⟩
        intro fd hfd
        obtain ⟨d, v, hm, h2, h3, h4, h5⟩ := hprop fd hfd
        exact ⟨d, v, List.mem_cons_of_mem _ hm, h2, h3, h4, h5⟩
      · by_cases hbig : 255 < 240 + d'
        · have hstep : devFieldsBlock cat pats ((d', v') :: rest) acc =
              devFieldsBlock cat pats rest acc := by
            simp [devFieldsBlock, List.foldl, hnone, hbig]
          obtain ⟨app, happ, hprop⟩ := ih acc
          refine ⟨app, by rw [hstep, happ], ?_⟩
          intro fd hfd
          obtain ⟨d, v, hm, h2, h3, h4, h5⟩ := hprop fd hfd
          exact ⟨d, v, List.mem_cons_of_mem _ hm, h2, h3, h4, h5⟩
        · have hstep : devFieldsBlock cat pats ((d', v') :: rest) acc =
              devFieldsBlock cat pats rest
                (acc.1 ++ [⟨.num (240 + d'), (devEntryDef cat pats d' v').2,
                  (devEntryDef cat pats d' v').1, some d'⟩],
                 dictInsert (.name ("developer_field_" ++ natStr d'))
                   (.num (240 + d')) acc.2) := by
            simp [devFieldsBlock, List.foldl, hnone, hbig]
          obtain ⟨app, happ, hprop⟩ := ih
            (acc.1 ++ [⟨.num (240 + d'), (devEntryDef cat pats d' v').2,
              (devEntryDef cat pats d' v').1, some d'⟩],
             dictInsert (.name ("developer_field_" ++ natStr d'))
               (.num (240 + d')) acc.2)
          refine ⟨⟨.num (240 + d'), (devEntryDef cat pats d' v').2,
            (devEntryDef cat pats d' v').1, some d'⟩ :: app, ?_, ?_⟩
          · rw [hstep, happ]
            simp
          · intro fd hfd
            rcases List.mem_cons.mp hfd with rfl | hfd2
            · exact ⟨d', v', by simp, by simp_all, hbig, rfl, rfl⟩
            · obtain ⟨d, v, hm, h2, h3, h4, h5⟩ := hprop fd hfd2
              exact ⟨d, v, List.mem_cons_of_mem _ hm, h2, h3, h4, h5⟩

/-- Every in-window non-None developer id of the processed dict receives a
    definition entry under its remapped id. -/
theorem devFieldsBlock_hits (cat : Catalog) (pats : Option (List (ℕ × ℕ))) :
    ∀ (es : List (ℕ × Value)) (acc : List FieldDef × List (FKey × FKey))
      (d : ℕ) (v : Value), (d, v) ∈ es → v.isNone = false → ¬ 255 < 240 + d →
      ∃ fd ∈ (devFieldsBlock cat pats es acc).1,
        fd.fieldId = FKey.num (240 + d) ∧ fd.origDevId = some d := by
  intro es
  induction es with
  | nil => intro acc d v hm; cases hm
  | cons e rest ih =>
      intro acc d v hm hnn hsz
      obtain ⟨d', v'⟩ := e
      rcases List.mem_cons.mp hm with heq | hm2
      · cases heq
        have hnone : v.isNone = false := hnn
        have hstep : devFieldsBlock cat pats ((d, v) :: rest) acc =
            devFieldsBlock cat pats rest
              (acc.1 ++ [⟨.num (240 + d), (devEntryDef cat pats d v).2,
                (devEntryDef cat pats d v).1, some d⟩],
               dictInsert (.name ("developer_field_" ++ natStr d))
                 (.num (240 + d)) acc.2) := by
          simp [devFieldsBlock, List.foldl, hnone, hsz]
        rw [hstep]
        obtain ⟨app, happ, _⟩ := devFieldsBlock_char cat pats rest
          (acc.1 ++ [⟨.num (240 + d), (devEntryDef cat pats d v).2,
            (devEntryDef cat pats d v).1, some d⟩],
           dictInsert (.name ("developer_field_" ++ natStr d))
             (.num (240 + d)) acc.2)
        refine ⟨⟨.num (240 + d), (devEntryDef cat pats d v).2,
          (devEntryDef cat pats d v).1, some d⟩, ?_, rfl, rfl⟩
        rw [happ]
        simp
      · by_cases hnone : v'.isNone = true
        · have hstep : devFieldsBlock cat pats ((d', v') :: rest) acc =
              devFieldsBlock cat pats rest acc := by
            simp [devFieldsBlock, List.foldl, hnone]
          rw [hstep]
          exact ih acc d v hm2 hnn hsz
        · by_cases hbig : 255 < 240 + d'
          · have hstep : devFieldsBlock cat pats ((d', v') :: rest) acc =
                devFieldsBlock cat pats rest acc := by
              simp [devFieldsBlock, List.foldl, hnone, hbig]
            rw [hstep]
            exact ih acc d v hm2 hnn hsz
          · have hstep : devFieldsBlock cat pats ((d', v') :: rest) acc =
                devFieldsBlock cat pats rest
                  (acc.1 ++ [⟨.num (240 + d'), (devEntryDef cat pats d' v').2,
                    (devEntryDef cat pats d' v').1, some d'⟩],
                   dictInsert (.name ("developer_field_" ++ natStr d'))
                     (.num (240 + d')) acc.2) := by
              simp [devFieldsBlock, List.foldl, hnone, hbig]
            rw [hstep]
            exact ih _ d v hm2 hnn hsz

/-- C5 counterexample: the remapped developer field id CAN collide with a
    catalog field id of the same message.  With a catalog field numbered
    253 (timestamp) and a developer field id 13, the definition record
    carries two field definitions under the same id 253 = 240 + 13: the
    code performs no collision check against catalog ids. -/
theorem C5_counterexample :
    (buildFieldDefs exCatalog exTimestampMsgProfile
        [.name "developer_fields", .name "timestamp"]
        [(.name "timestamp", .vInt 1000),
         (.name "developer_fields", .vDict [(13, .vInt 7)])]
        (some [(13, 2)])).1.map FieldDef.fieldId =
      [FKey.num 253, FKey.num 253] ∧
    ¬ List.Nodup [FKey.num 253, FKey.num 253] ∧
    (253 : ℕ) = 240 + 13 := by
  refine ⟨by decide, ?_, rfl⟩
  decide

/-- C5 (amended): every developer field with id d is written into the
    definition under the remapped field id 240 + d, which always lies in
    [240, 255]; a developer field whose remapped id would exceed 255
    (d > 15) is omitted while the previously built definitions are kept
    unchanged as a prefix; every in-window non-None developer field does
    receive its entry.  (No collision avoidance with catalog ids exists:
    see the counterexample.) -/
theorem C5_dev_remap_window (cat : Catalog) (pats : Option (List (ℕ × ℕ)))
    (es : List (ℕ × Value)) (acc : List FieldDef × List (FKey × FKey))
    (d : ℕ) (v : Value) (hm : (d, v) ∈ es) (hnn : v.isNone = false) :
    (∃ app, (devFieldsBlock cat pats es acc).1 = acc.1 ++ app ∧
       (∀ fd ∈ app, ∃ d2, d2 ≤ 15 ∧ fd.fieldId = FKey.num (240 + d2) ∧
          240 ≤ 240 + d2 ∧ 240 + d2 ≤ 255 ∧ fd.origDevId = some d2) ∧
       (15 < d → ∀ fd ∈ app, fd.origDevId ≠ some d)) ∧
    (d ≤ 15 →
       ∃ fd ∈ (devFieldsBlock cat pats es acc).1,
         fd.fieldId = FKey.num (240 + d) ∧ fd.origDevId = some d) := by
  obtain ⟨app, happ, hchar⟩ := devFieldsBlock_char cat pats es acc
  refine ⟨⟨app, happ, ?_, ?_⟩, ?_⟩
  · intro fd hfd
    obtain ⟨d2, v2, _, _, hsz, h4, h5⟩ := hchar fd hfd
    exact ⟨d2, by omega, h4, by omega, by omega, h5⟩
  · intro hd fd hfd hod
    obtain ⟨d2, v2, _, _, hsz, h4, h5⟩ := hchar fd hfd
    rw [h5] at hod
    have hdd : d2 = d := Option.some.inj hod
    omega
  · intro hd
    exact devFieldsBlock_hits cat pats es acc d v hm hnn (by omega)

/-- C5 witness: the remap-window theorem applied to a concrete developer
    dict holding an in-window id 13 and an oversize id 20 (remap 260). -/
theorem C5_witness :
    ((20, Value.vInt 5) ∈ [((13 : ℕ), Value.vInt 7), (20, Value.vInt 5)]) ∧
    (Value.vInt 5).isNone = false ∧
    ((∃ app, (devFieldsBlock exCatalog (some [(13, 2)])
        [(13, .vInt 7), (20, .vInt 5)] ([], [])).1 = [] ++ app ∧
       (∀ fd ∈ app, ∃ d2, d2 ≤ 15 ∧ fd.fieldId = FKey.num (240 + d2) ∧
          240 ≤ 240 + d2 ∧ 240 + d2 ≤ 255 ∧ fd.origDevId = some d2) ∧
       (15 < 20 → ∀ fd ∈ app, fd.origDevId ≠ some 20)) ∧
    (20 ≤ 15 →
       ∃ fd ∈ (devFieldsBlock exCatalog (some [(13, 2)])
           [(13, .vInt 7), (20, .vInt 5)] ([], [])).1,
         fd.fieldId = FKey.num (240 + 20) ∧ fd.origDevId = some 20)) :=
  ⟨by simp, rfl,
   C5_dev_remap_window exCatalog (some [(13, 2)])
     [(13, .vInt 7), (20, .vInt 5)] ([], []) 20 (.vInt 5) (by simp) rfl⟩

/-- leBytes always produces exactly its width in bytes. -/
theorem leBytes_length (w : ℕ) : ∀ n, (leBytes w n).length = w := by
  induction w with
  | zero => intro n; rfl
  | succ k ih => intro n; simp [leBytes, ih]

/-- A failure of Python int() is a ValueError or a TypeError, both inside
    the packing except clause. -/
theorem pyInt_error_caught (v : Value) (e : PyExc) (h : pyInt v = .error e) :
    caughtPack e = true := by
  cases v with
  | vBool b => simp [pyInt] at h
  | vInt n => simp [pyInt] at h
  | vFloat q => simp [pyInt] at h
  | vStr s =>
      cases hp : pyStrToInt? s with
      | none =>
          simp only [pyInt, hp, Except.error.injEq] at h
          subst h
          decide
      | some n => simp [pyInt, hp] at h
  | vNone =>
      simp only [pyInt, Except.error.injEq] at h
      subst h
      decide
  | vArr xs =>
      simp only [pyInt, Except.error.injEq] at h
      subst h
      decide
  | vDict es =>
      simp only [pyInt, Except.error.injEq] at h
      subst h
      decide
  | vTime t =>
      simp only [pyInt, Except.error.injEq] at h
      subst h
      decide

/-- A failure of Python float() is a ValueError or a TypeError, both inside
    the packing except clause. -/
theorem pyFloat_error_caught (v : Value) (e : PyExc) (h : pyFloat v = .error e) :
    caughtPack e = true := by
  cases v with
  | vBool b => simp [pyFloat] at h
  | vInt n => simp [pyFloat] at h
  | vFloat q => simp [pyFloat] at h
  | vStr s =>
      simp only [pyFloat, Except.error.injEq] at h
      subst h
      decide
  | vNone =>
      simp only [pyFloat, Except.error.injEq] at h
      subst h
      decide
  | vArr xs =>
      simp only [pyFloat, Except.error.injEq] at h
      subst h
      decide
  | vDict es =>
      simp only [pyFloat, Except.error.injEq] at h
      subst h
      decide
  | vTime t =>
      simp only [pyFloat, Except.error.injEq] at h
      subst h
      decide

/-- Every exception the struct.pack dispatch of _write_single_value can
    raise is one of the four classes of its except clause. -/
theorem packAttempt_error_caught (v : Value) (btd : BTDef) (e : PyExc)
    (h : packAttempt v btd = .error e) : caughtPack e = true := by
  unfold packAttempt at h
  split_ifs at h
  all_goals
    first
    | (cases hv : pyInt v with
       | error e2 =>
           rw [hv] at h
           dsimp only at h
           simp only [Except.error.injEq] at h
           subst h
           exact pyInt_error_caught v e2 hv
       | ok n =>
           rw [hv] at h
           dsimp only at h
           (try split_ifs at h) <;>
             first
             | (simp only [Except.error.injEq] at h
                subst h
                decide)
             | simp at h)
    | (cases hv : pyFloat v with
       | error e2 =>
           rw [hv] at h
           dsimp only at h
           simp only [Except.error.injEq] at h
           subst h
           exact pyFloat_error_caught v e2 hv
       | ok q =>
           rw [hv] at h
           dsimp only at h
           simp at h)
    | simp at h

/-- Writing the base type's invalid sentinel always succeeds and spans the
    full declared field width. -/
theorem sentinel_write_ok (base_type : ℕ) (btd : BTDef)
    (hbt : btLookup base_type = some btd) :
    ∃ sent, write_field_bytes (.vInt btd.invalid) btd.size base_type = .ok sent ∧
      sent.length = btd.size := by
  unfold write_field_bytes
  simp only [hbt, Option.getD_some, Value.isNone, Bool.false_eq_true, if_false,
    pyInt]
  split_ifs with h1 h2 h3 h4 h5
  · exact ⟨[intByte btd.invalid], rfl, by simp [h1]⟩
  · exact ⟨intLE 2 btd.invalid, rfl, by simp [intLE, leBytes_length, h2]⟩
  · exact ⟨intLE 4 btd.invalid, rfl, by simp [intLE, leBytes_length, h3]⟩
  · exact ⟨intLE 8 btd.invalid, rfl, by simp [intLE, leBytes_length, h4]⟩
  · exact ⟨List.replicate btd.size 0xFF, rfl, by simp⟩
  · exact ⟨List.replicate btd.size (intByte btd.invalid), rfl, by simp⟩

/-- C6: the packing step never raises out of the encode.  For any known
    base type, once the scale/offset step has produced a value, writing it
    with _write_single_value succeeds; and whenever the struct.pack attempt
    on the prepared value fails, the raised exception is one of the four
    caught classes and the emitted bytes are exactly the base type's
    invalid-sentinel write spanning the full declared field width. -/
theorem C6_pack_failure_sentinel (cat : Catalog) (value : Value)
    (base_type : ℕ) (btd : BTDef) (fp : Option FieldProfile) (v1 : Value)
    (hbt : btLookup base_type = some btd)
    (happly : applyScaleOffset fp (timeConv value) = .ok v1) :
    ∃ bs, write_single_value cat value base_type fp = .ok bs ∧
      ∀ e, packAttempt
          (if v1.isStr ∧ base_type ≠ baseType "STRING" then
             resolveEnumString cat fp btd v1
           else v1) btd = .error e →
        caughtPack e = true ∧
        write_field_bytes (.vInt btd.invalid) btd.size base_type = .ok bs ∧
        bs.length = btd.size := by
  obtain ⟨sent, hsent, hlen⟩ := sentinel_write_ok base_type btd hbt
  simp only [write_single_value, hbt]
  rw [happly]
  by_cases hnone :
      (if v1.isStr ∧ base_type ≠ baseType "STRING" then
         resolveEnumString cat fp btd v1
       else v1).isNone = true
  · refine ⟨sent, ?_, ?_⟩
    · simp only [hnone, if_true, hsent]
    · intro e he
      exact ⟨packAttempt_error_caught _ btd e he, hsent, hlen⟩
  · cases hp : packAttempt
        (if v1.isStr ∧ base_type ≠ baseType "STRING" then
           resolveEnumString cat fp btd v1
         else v1) btd with
    | ok bs =>
        refine ⟨bs, ?_, ?_⟩
        · simp only [hnone, Bool.false_eq_true, if_false]
          rw [hp]
        · intro e he
          exact absurd he (by simp)
    | error e0 =>
        have hc : caughtPack e0 = true := packAttempt_error_caught _ btd e0 hp
        refine ⟨sent, ?_, ?_⟩
        · simp only [hnone, Bool.false_eq_true, if_false]
          rw [hp]
          dsimp only
          rw [if_pos hc]
          exact hsent
        · intro e he
          simp only [Except.error.injEq] at he
          subst he
          exact ⟨hc, hsent, hlen⟩

/-- C6 witness: the pack-safety theorem applied to the out-of-range value
    200 over SINT8 (struct.error inside the try, sentinel 0x7F emitted). -/
theorem C6_witness :
    btLookup (baseType "SINT8") = some ⟨1, 0x7F, 'b'⟩ ∧
    applyScaleOffset none (timeConv (.vInt 200)) = .ok (.vInt 200) ∧
    (∃ bs, write_single_value exCatalog (.vInt 200) (baseType "SINT8") none =
        .ok bs ∧
      ∀ e, packAttempt
          (if (Value.vInt 200).isStr ∧ baseType "SINT8" ≠ baseType "STRING" then
             resolveEnumString exCatalog none ⟨1, 0x7F, 'b'⟩ (.vInt 200)
           else (.vInt 200)) ⟨1, 0x7F, 'b'⟩ = .error e →
        caughtPack e = true ∧
        write_field_bytes (.vInt 0x7F) 1 (baseType "SINT8") = .ok bs ∧
        bs.length = 1) :=
  ⟨rfl, rfl,
   C6_pack_failure_sentinel exCatalog (.vInt 200) (baseType "SINT8")
     ⟨1, 0x7F, 'b'⟩ none (.vInt 200) rfl rfl⟩

/-- Every entry of the CRC nibble table is a 16-bit value. -/
theorem crcTable_getD_lt (n : ℕ) : crcTable.getD n 0 < 65536 := by
  rw [List.getD_eq_getElem?_getD]
  cases h : crcTable[n]? with
  | none => simp
  | some x =>
      have hx : x ∈ crcTable := by
        have := List.getElem?_mem h
        exact this
      have hall : ∀ y ∈ crcTable, y < 65536 := by decide
      simpa using hall x hx

/-- One CRC nibble step stays within 16 bits. -/
theorem crcNibble_lt (crc x : ℕ) : crcNibble crc x < 65536 := by
  unfold crcNibble
  dsimp only
  have h1 : (crc / 16) % 0x1000 < 2 ^ 16 := by
    have := Nat.mod_lt (crc / 16) (show 0 < 0x1000 by norm_num)
    omega
  have h2 : crcTable.getD (crc % 16) 0 < 2 ^ 16 := by
    have := crcTable_getD_lt (crc % 16)
    omega
  have h3 : crcTable.getD (x % 16) 0 < 2 ^ 16 := by
    have := crcTable_getD_lt (x % 16)
    omega
  have hx := Nat.xor_lt_two_pow (Nat.xor_lt_two_pow h1 h2) h3
  exact lt_of_lt_of_eq hx (by norm_num)

/-- One CRC byte step stays within 16 bits. -/
theorem crcByte_lt (crc b : ℕ) : crcByte crc b < 65536 := by
  unfold crcByte
  exact crcNibble_lt _ _

/-- The file CRC is always a 16-bit value, so its little-endian pack
    never fails. -/
theorem calculate_crc_lt (bs : List ℕ) : calculate_crc bs < 65536 := by
  unfold calculate_crc
  have hgen : ∀ (l : List ℕ) (acc : ℕ), acc < 65536 →
      l.foldl crcByte acc < 65536 := by
    intro l
    induction l with
    | nil => intro acc h; simpa using h
    | cons b rest ih =>
        intro acc _
        simp only [List.foldl]
        exact ih (crcByte acc b) (crcByte_lt acc b)
  exact hgen bs 0 (by norm_num)

/-- For any representable data size, _create_header returns the 12 fixed
    bytes followed by the 16-bit CRC over them. -/
theorem create_header_ok (L : ℕ) (hL : L < 4294967296) :
    create_header L =
      .ok ((14 :: 2 :: u16le 21173 ++ u32le L ++ [0x2E, 0x46, 0x49, 0x54]) ++
        u16le (calculate_crc
          (14 :: 2 :: u16le 21173 ++ u32le L ++ [0x2E, 0x46, 0x49, 0x54]))) := by
  have hpv : pack16 21173 = .ok (u16le 21173) := rfl
  have hds : pack32 L = .ok (u32le L) := by simp [pack32, hL]
  have hhc : pack16 (calculate_crc
      (14 :: 2 :: u16le 21173 ++ u32le L ++ [0x2E, 0x46, 0x49, 0x54])) =
      .ok (u16le (calculate_crc
        (14 :: 2 :: u16le 21173 ++ u32le L ++ [0x2E, 0x46, 0x49, 0x54]))) := by
    simp [pack16, calculate_crc_lt]
  simp only [create_header, bind, Except.bind, hpv, hds, hhc]

/-- C7: the byte buffer of write_to_bytes is header ++ data records ++
    trailing u16 LE file checksum; the header is 14 bytes: byte 0 = 14,
    byte 1 = protocol version 2, bytes 2-3 = profile version 21173 LE,
    bytes 4-7 = u32 LE data size (the record byte count, excluding header
    and trailing checksum), bytes 8-11 = ".FIT", bytes 12-13 = u16 LE CRC
    over the first 12 header bytes; the final 2 bytes are the CRC over
    header plus all data bytes (both CRCs are genuine 16-bit values). -/
theorem C7_file_layout (cat : Catalog) (messages : List (String × List Msg))
    (next0 : ℕ) (st : EncSt)
    (hw : write_messages cat messages ⟨[], [], next0⟩ = .ok st)
    (hlen : st.buf.length < 4294967296) :
    ∃ h12 header,
      h12 = 14 :: 2 :: u16le 21173 ++ u32le st.buf.length ++
        [0x2E, 0x46, 0x49, 0x54] ∧
      header = h12 ++ u16le (calculate_crc h12) ∧
      write_to_bytes cat messages next0 =
        .ok (header ++ st.buf ++ u16le (calculate_crc (header ++ st.buf))) ∧
      header.length = 14 ∧
      h12.length = 12 ∧
      u16le 21173 = [181, 82] ∧
      u32le st.buf.length = [st.buf.length % 256, st.buf.length / 256 % 256,
        st.buf.length / 65536 % 256, st.buf.length / 16777216 % 256] ∧
      calculate_crc h12 < 65536 ∧
      calculate_crc (header ++ st.buf) < 65536 := by
  refine ⟨_, _, rfl, rfl, ?_, ?_, ?_, ?_, ?_, calculate_crc_lt _,
    calculate_crc_lt _⟩
  · have hch := create_header_ok st.buf.length hlen
    have hcb : pack16 (calculate_crc
        (((14 :: 2 :: u16le 21173 ++ u32le st.buf.length ++
           [0x2E, 0x46, 0x49, 0x54]) ++
          u16le (calculate_crc (14 :: 2 :: u16le 21173 ++
            u32le st.buf.length ++ [0x2E, 0x46, 0x49, 0x54]))) ++ st.buf)) =
        .ok (u16le (calculate_crc
          (((14 :: 2 :: u16le 21173 ++ u32le st.buf.length ++
             [0x2E, 0x46, 0x49, 0x54]) ++
            u16le (calculate_crc (14 :: 2 :: u16le 21173 ++
              u32le st.buf.length ++ [0x2E, 0x46, 0x49, 0x54]))) ++ st.buf))) := by
      simp [pack16, calculate_crc_lt]
    simp only [write_to_bytes, bind, Except.bind, hw, hch, hcb]
  · simp [u16le, u32le, leBytes_length]
  · simp [u16le, u32le, leBytes_length]
  · decide
  · norm_num [u32le, leBytes, Nat.div_div_eq_div_mul]

/-- C7 witness: the file-layout theorem applied to a one-message encode
    whose 11 record bytes were computed concretely. -/
theorem C7_witness :
    write_messages exCatalog
        [("file_id_mesgs", [[(.name "type", .vStr "activity")]])] ⟨[], [], 0⟩ =
      .ok ⟨[64, 0, 0, 0, 0, 1, 0, 1, 0, 0, 4],
           [(0, ⟨0, [⟨.num 0, 1, 0, none⟩], [(.name "type", .num 0)]⟩)], 1⟩ ∧
    ((11 : ℕ) < 4294967296) ∧
    (∃ h12 header,
      h12 = 14 :: 2 :: u16le 21173 ++ u32le 11 ++ [0x2E, 0x46, 0x49, 0x54] ∧
      header = h12 ++ u16le (calculate_crc h12) ∧
      write_to_bytes exCatalog
          [("file_id_mesgs", [[(.name "type", .vStr "activity")]])] 0 =
        .ok (header ++ [64, 0, 0, 0, 0, 1, 0, 1, 0, 0, 4] ++
          u16le (calculate_crc
            (header ++ [64, 0, 0, 0, 0, 1, 0, 1, 0, 0, 4]))) ∧
      header.length = 14 ∧ h12.length = 12 ∧
      u16le 21173 = [181, 82] ∧
      u32le 11 = [11 % 256, 11 / 256 % 256, 11 / 65536 % 256,
        11 / 16777216 % 256] ∧
      calculate_crc h12 < 65536 ∧
      calculate_crc (header ++ [64, 0, 0, 0, 0, 1, 0, 1, 0, 0, 4]) < 65536) :=
  ⟨rfl, by decide,
   C7_file_layout exCatalog
     [("file_id_mesgs", [[(.name "type", .vStr "activity")]])] 0
     ⟨[64, 0, 0, 0, 0, 1, 0, 1, 0, 0, 4],
      [(0, ⟨0, [⟨.num 0, 1, 0, none⟩], [(.name "type", .num 0)]⟩)], 1⟩
     rfl (by decide)⟩

/-- C8 counterexample: declared size zero is NOT a hard failure.  An empty
    developer array yields a field definition of size 0, and the definition
    record is written successfully (bytes ... 1, 240, 0, 2: one field,
    id 240, size 0, base type 2), with no exception raised. -/
theorem C8_counterexample :
    write_specific_message_definition exCatalog 0 20 exTimestampMsgProfile
        [.name "developer_fields"]
        [(.name "developer_fields", .vDict [(0, .vArr [])])]
        (some [(0, 2)]) ⟨[], [], 0⟩ =
      .ok ⟨[64, 0, 0, 20, 0, 1, 240, 0, 2],
           [(0, ⟨20, [⟨.num 240, 0, 2, some 0⟩],
             [(.name "developer_field_0", .num 240)]⟩)], 0⟩ ∧
    (⟨.num 240, 0, 2, some 0⟩ : FieldDef).size = 0 := by
  exact ⟨rfl, rfl⟩

/-- C8 (amended): a field whose base-type code is outside the fixed
    base-type table makes the serialization of the definition record raise
    ValueError before writing, but a zero declared size is not checked: a
    zero-size field with a known base type serializes successfully as its
    three bytes id, 0, base type. -/
theorem C8_base_type_validation :
    (∀ (fd : FieldDef) (rest : List FieldDef),
       btLookup fd.baseType = none → (fd :: rest).length ≤ 255 →
       serializeFieldDefs (fd :: rest) = .error .valueError) ∧
    (∀ (fid bt : ℕ) (btd : BTDef) (d : Option ℕ),
       fid ≤ 255 → bt ≤ 255 → btLookup bt = some btd →
       serializeFieldDefs [⟨.num fid, 0, bt, d⟩] = .ok [1, fid, 0, bt]) := by
  constructor
  · intro fd rest hbt hcount
    simp only [serializeFieldDefs, appendByteVal, List.length_cons]
    rw [if_pos (by simpa using hcount)]
    simp only [bind, Except.bind, List.foldlM, hbt]
  · intro fid bt btd d hfid hbt hsome
    simp only [serializeFieldDefs, appendByteVal, appendFieldIdByte,
      List.length_cons, List.length_nil]
    rw [if_pos (by omega)]
    simp only [bind, Except.bind, List.foldlM, hsome]
    rw [if_pos hfid, if_pos (by omega), if_pos hbt]
    rfl

/-- C8 witness: the validation theorem applied to base type 99 (not in the
    table) and to a valid zero-size UINT8 field. -/
theorem C8_witness :
    btLookup (⟨.num 240, 1, 99, none⟩ : FieldDef).baseType = none ∧
    ([(⟨.num 240, 1, 99, none⟩ : FieldDef)] : List FieldDef).length ≤ 255 ∧
    serializeFieldDefs [⟨.num 240, 1, 99, none⟩] = .error .valueError ∧
    (240 : ℕ) ≤ 255 ∧ (2 : ℕ) ≤ 255 ∧ btLookup 2 = some ⟨1, 0xFF, 'B'⟩ ∧
    serializeFieldDefs [⟨.num 240, 0, 2, some 0⟩] = .ok [1, 240, 0, 2] :=
  ⟨rfl, by decide, C8_base_type_validation.1 ⟨.num 240, 1, 99, none⟩ [] rfl
     (by decide),
   by decide, by decide, rfl,
   C8_base_type_validation.2 240 2 ⟨1, 0xFF, 'B'⟩ (some 0) (by decide)
     (by decide) rfl⟩

/-- Bind on Except succeeds exactly through a successful intermediate. -/
theorem bind_ok_iff {ε α β : Type} (x : Except ε α) (f : α → Except ε β)
    (b : β) : (x >>= f) = .ok b ↔ ∃ a, x = .ok a ∧ f a = .ok b := by
  cases x <;> simp [bind, Except.bind]

/-- The keys after a Python dict assignment: unchanged when the key was
    present, appended otherwise. -/
theorem dictInsert_map_fst {κ α : Type} [DecidableEq κ] (k : κ) (v : α)
    (l : List (κ × α)) :
    (dictInsert k v l).map Prod.fst =
      if k ∈ l.map Prod.fst then l.map Prod.fst else l.map Prod.fst ++ [k] := by
  induction l with
  | nil => simp [dictInsert]
  | cons e rest ih =>
      obtain ⟨k', v'⟩ := e
      by_cases hk : k = k'
      · subst hk
        simp [dictInsert]
      · simp only [dictInsert, if_neg hk, List.map_cons, ih]
        by_cases hm : k ∈ rest.map Prod.fst
        · simp [hm, List.mem_cons, hk]
        · simp [hm, List.mem_cons, hk]

/-- dict assignment keeps the keys pairwise distinct. -/
theorem dictInsert_keys_nodup {κ α : Type} [DecidableEq κ] (k : κ) (v : α)
    (l : List (κ × α)) (h : (l.map Prod.fst).Nodup) :
    ((dictInsert k v l).map Prod.fst).Nodup := by
  rw [dictInsert_map_fst]
  split_ifs with hm
  · exact h
  · simp [List.nodup_append, h, hm]

/-- Every key after a dict assignment is the assigned key or an old key. -/
theorem dictInsert_keys_sub {κ α : Type} [DecidableEq κ] (k : κ) (v : α)
    (l : List (κ × α)) (k' : κ) (h : k' ∈ (dictInsert k v l).map Prod.fst) :
    k' = k ∨ k' ∈ l.map Prod.fst := by
  rw [dictInsert_map_fst] at h
  split_ifs at h with hm
  · exact Or.inr h
  · rcases List.mem_append.mp h with h2 | h2
    · exact Or.inr h2
    · simp at h2
      exact Or.inl h2

/-- A duplicate-free list of naturals below 16 has at most 16 elements. -/
theorem nodup_lt16_length (l : List ℕ) (h1 : l.Nodup)
    (h2 : ∀ k ∈ l, k < 16) : l.length ≤ 16 := by
  have hcard : l.toFinset.card = l.length := List.toFinset_card_of_nodup h1
  have hsub : l.toFinset ⊆ Finset.range 16 := by
    intro x hx
    simp only [List.mem_toFinset] at hx
    exact Finset.mem_range.mpr (h2 x hx)
  have hle := Finset.card_le_card hsub
  simp only [Finset.card_range] at hle
  omega

/-- The unified/field-description slot allocator always yields a slot
    below 16. -/
theorem allocSlot_lt (next : ℕ) : allocSlot next < 16 := by
  unfold allocSlot
  split_ifs with h
  · exact Nat.mod_lt _ (by norm_num)
  · omega

/-- The developer-writer slot allocator always yields a slot below 16. -/
theorem allocSlotDev_lt (next : ℕ) (used : List ℕ) :
    allocSlotDev next used < 16 := by
  unfold allocSlotDev
  split_ifs with h
  · cases hf : (List.range 16).find? (fun t => !used.contains t) with
    | none => exact Nat.mod_lt _ (by norm_num)
    | some t =>
        have := List.find?_mem hf
        simpa using List.mem_range.mp (by simpa using this)
  · omega

/-- A data record only appends bytes: the definition table and the next
    local number are untouched, and the appended record starts with the
    slot header byte local mod 16. -/
theorem wmd_defs (cat : Catalog) (l : ℕ) (mp : MsgProfile) (message : Msg)
    (st st' : EncSt)
    (h : write_message_data cat l mp message st = .ok st') :
    st'.defs = st.defs ∧ st'.next = st.next ∧
      ∃ bytes, st'.buf = st.buf ++ (l % 16) :: bytes := by
  unfold write_message_data at h
  cases hd : dictGet st.defs l with
  | none =>
      rw [hd] at h
      exact absurd h (by simp)
  | some msg_def =>
      rw [hd] at h
      dsimp only at h
      simp only [bind_ok_iff] at h
      obtain ⟨bytes, _, hok⟩ := h
      simp only [Except.ok.injEq] at hok
      subst hok
      exact ⟨rfl, rfl, bytes, rfl⟩

/-- A definition record binds exactly the given slot (replacing any
    previous binding), leaves the next counter alone, and appends the
    definition header byte 0x40 OR (local mod 16) followed by the record
    body. -/
theorem wsmd_defs (cat : Catalog) (l g : ℕ) (mp : MsgProfile)
    (mf : List FKey) (sm : Msg) (dfp : Option (List (ℕ × ℕ)))
    (st st' : EncSt)
    (h : write_specific_message_definition cat l g mp mf sm dfp st = .ok st') :
    ∃ body,
      st'.defs = dictInsert l
        ⟨g, (buildFieldDefs cat mp mf sm dfp).1,
         (buildFieldDefs cat mp mf sm dfp).2⟩ st.defs ∧
      st'.next = st.next ∧
      st'.buf = st.buf ++ ((0x40 ||| (l % 16)) :: 0 :: 0 :: u16le g) ++ body := by
  unfold write_specific_message_definition at h
  by_cases hg : 65536 ≤ g
  · rw [if_pos hg] at h
    exact absurd h (by simp)
  · rw [if_neg hg] at h
    dsimp only at h
    simp only [bind_ok_iff] at h
    obtain ⟨body, _, hok⟩ := h
    simp only [Except.ok.injEq] at hok
    subst hok
    exact ⟨body, rfl, rfl, by simp⟩

/-- An invariant preserved by every step of a monadic fold over Except is
    preserved by the whole fold. -/
theorem foldlM_inv {α β : Type} (P : β → Prop) (f : β → α → Except PyExc β)
    (hf : ∀ s a s', P s → f s a = .ok s' → P s') :
    ∀ (l : List α) (s s' : β), P s → List.foldlM f s l = .ok s' → P s' := by
  intro l
  induction l with
  | nil =>
      intro s s' hP h
      simp only [List.foldlM_nil] at h
      cases h
      exact hP
  | cons a rest ih =>
      intro s s' hP h
      simp only [List.foldlM_cons, bind_ok_iff] at h
      obtain ⟨s1, h1, h2⟩ := h
      exact ih s1 s' (hf s a s1 hP h1) h2

/-- Binding a fresh slot below 16 preserves the slot-table invariant. -/
theorem defsInv_insert (l : ℕ) (d : MsgDef) (defs : List (ℕ × MsgDef))
    (h1 : (defs.map Prod.fst).Nodup) (h2 : ∀ k ∈ defs.map Prod.fst, k < 16)
    (hl : l < 16) :
    ((dictInsert l d defs).map Prod.fst).Nodup ∧
      ∀ k ∈ (dictInsert l d defs).map Prod.fst, k < 16 := by
  refine ⟨dictInsert_keys_nodup l d defs h1, ?_⟩
  intro k hk
  rcases dictInsert_keys_sub l d defs k hk with rfl | hmem
  · exact hl
  · exact h2 k hmem

/-- The unified writer preserves the slot-table invariant. -/
theorem wum_inv (cat : Catalog) (g : ℕ) (mp : MsgProfile)
    (messages : List Msg) (st st' : EncSt)
    (h : write_unified_messages cat g mp messages st = .ok st')
    (hi : DefsInv st) : DefsInv st' := by
  unfold write_unified_messages at h
  dsimp only at h
  simp only [bind_ok_iff] at h
  obtain ⟨st1, h1, h2⟩ := h
  obtain ⟨body, hdefs, _, _⟩ := wsmd_defs _ _ _ _ _ _ _ _ _ h1
  have hi1 : DefsInv st1 := by
    unfold DefsInv at hi ⊢
    rw [hdefs]
    exact defsInv_insert _ _ _ hi.1 hi.2 (allocSlot_lt st.next)
  refine foldlM_inv DefsInv _ ?_ messages st1 st' hi1 h2
  intro s a s' hP hstep
  obtain ⟨hd, _, _⟩ := wmd_defs _ _ _ _ _ _ hstep
  unfold DefsInv at hP ⊢
  rw [hd]
  exact hP

/-- The field-description writer preserves the slot-table invariant. -/
theorem wfdm_inv (cat : Catalog) (g : ℕ) (mp : MsgProfile)
    (messages : List Msg) (st st' : EncSt)
    (h : write_field_description_messages cat g mp messages st = .ok st')
    (hi : DefsInv st) : DefsInv st' := by
  unfold write_field_description_messages at h
  (try dsimp only at h)
  simp only [bind_ok_iff] at h
  obtain ⟨res, hres, hok⟩ := h
  simp only [Except.ok.injEq] at hok
  subst hok
  refine foldlM_inv (fun s => DefsInv s.2) _ ?_ messages ([], st) res hi hres
  intro s a s' hP hstep
  (try dsimp only at hstep)
  cases hc : dictGet s.1 (messageFieldSet a) with
  | some local_num =>
      rw [hc] at hstep
      simp only [bind_ok_iff] at hstep
      obtain ⟨st2, h1, h2⟩ := hstep
      simp only [Except.ok.injEq] at h2
      subst h2
      obtain ⟨hd, _, _⟩ := wmd_defs _ _ _ _ _ _ h1
      unfold DefsInv at hP ⊢
      rw [hd]
      exact hP
  | none =>
      rw [hc] at hstep
      dsimp only at hstep
      simp only [bind_ok_iff] at hstep
      obtain ⟨st2, h1, st3, h2, h3⟩ := hstep
      simp only [Except.ok.injEq] at h3
      subst h3
      obtain ⟨body, hdefs2, _, _⟩ := wsmd_defs _ _ _ _ _ _ _ _ _ h1
      obtain ⟨hdefs3, _, _⟩ := wmd_defs _ _ _ _ _ _ h2
      show DefsInv st3
      unfold DefsInv at hP ⊢
      rw [hdefs3, hdefs2]
      exact defsInv_insert _ _ _ hP.1 hP.2 (allocSlot_lt s.2.next)

/-- The developer-field writer preserves the slot-table invariant. -/
theorem wdfm_inv (cat : Catalog) (g : ℕ) (mp : MsgProfile)
    (messages : List Msg) (st st' : EncSt)
    (h : write_developer_field_messages cat g mp messages st = .ok st')
    (hi : DefsInv st) : DefsInv st' := by
  unfold write_developer_field_messages at h
  (try dsimp only at h)
  simp only [bind_ok_iff] at h
  obtain ⟨res, hres, hok⟩ := h
  simp only [Except.ok.injEq] at hok
  subst hok
  refine foldlM_inv (fun s => DefsInv s.2) _ ?_ messages ([], st) res hi hres
  intro s a s' hP hstep
  (try dsimp only at hstep)
  cases hc : dictGet s.1 (devSigOf (devFieldPatterns messages) a) with
  | some local_num =>
      rw [hc] at hstep
      simp only [bind_ok_iff] at hstep
      obtain ⟨st2, h1, h2⟩ := hstep
      simp only [Except.ok.injEq] at h2
      subst h2
      obtain ⟨hd, _, _⟩ := wmd_defs _ _ _ _ _ _ h1
      unfold DefsInv at hP ⊢
      rw [hd]
      exact hP
  | none =>
      rw [hc] at hstep
      dsimp only at hstep
      simp only [bind_ok_iff] at hstep
      obtain ⟨sample, hs, st2, h1, st3, h2, h3⟩ := hstep
      simp only [Except.ok.injEq] at h3
      subst h3
      obtain ⟨body, hdefs2, _, _⟩ := wsmd_defs _ _ _ _ _ _ _ _ _ h1
      obtain ⟨hdefs3, _, _⟩ := wmd_defs _ _ _ _ _ _ h2
      show DefsInv st3
      unfold DefsInv at hP ⊢
      rw [hdefs3, hdefs2]
      have hst1defs :
          (if 16 ≤ s.2.next then s.2
           else { s.2 with next := s.2.next + 1 }).defs = s.2.defs := by
        split_ifs <;> rfl
      rw [hst1defs]
      exact defsInv_insert _ _ _ hP.1 hP.2
        (allocSlotDev_lt s.2.next (s.1.map Prod.snd))

/-- The per-message-type dispatch preserves the slot-table invariant. -/
theorem wmt_inv (cat : Catalog) (n : ℕ) (messages : List Msg)
    (st st' : EncSt)
    (h : write_message_type cat n messages st = .ok st')
    (hi : DefsInv st) : DefsInv st' := by
  unfold write_message_type at h
  dsimp only at h
  split_ifs at h with h1 h2
  · exact wfdm_inv _ _ _ _ _ _ h hi
  · exact wdfm_inv _ _ _ _ _ _ h hi
  · exact wum_inv _ _ _ _ _ _ h hi

/-- The whole message pass preserves the slot-table invariant. -/
theorem wmsgs_inv (cat : Catalog) (msgs : List (String × List Msg))
    (st st' : EncSt)
    (h : write_messages cat msgs st = .ok st')
    (hi : DefsInv st) : DefsInv st' := by
  unfold write_messages at h
  have step : ∀ (s : EncSt) (a : String × List Msg) (s' : EncSt), DefsInv s →
      (if a.1 ≠ "file_id_mesgs" ∧ (!a.2.isEmpty) = true then
         match get_global_message_number cat a.1 with
         | some n => write_message_type cat n a.2 s
         | none => Except.ok s
       else Except.ok s) = .ok s' → DefsInv s' := by
    intro s a s' hP hstep
    split_ifs at hstep with hcond
    · cases hg : get_global_message_number cat a.1 with
      | some n =>
          rw [hg] at hstep
          exact wmt_inv _ _ _ _ _ hstep hP
      | none =>
          rw [hg] at hstep
          cases hstep
          exact hP
    · cases hstep
      exact hP
  cases hf : dictGet msgs "file_id_mesgs" with
  | some l =>
      rw [hf] at h
      simp only [bind_ok_iff] at h
      obtain ⟨st1, h1, h2⟩ := h
      exact foldlM_inv DefsInv _ step msgs st1 st' (wmt_inv _ _ _ _ _ h1 hi) h2
  | none =>
      rw [hf] at h
      simp only [bind_ok_iff] at h
      obtain ⟨st1, h1, h2⟩ := h
      cases h1
      exact foldlM_inv DefsInv _ step msgs st st' hi h2

/-- C9: both slot allocators return slots in [0, 15]; a definition record
    appends the header byte 0x40 OR slot (low nibble = the slot, high
    nibble = 4) and a data record appends the header byte slot mod 16
    (high nibble clear); and after any whole message pass started from a
    fresh state, the local definition table binds each slot to at most one
    definition, every bound slot is below 16, and at most 16 definitions
    are concurrently bound. -/
theorem C9_slot_invariants :
    (∀ next, allocSlot next < 16) ∧
    (∀ next used, allocSlotDev next used < 16) ∧
    (∀ (cat : Catalog) (l g : ℕ) (mp : MsgProfile) (mf : List FKey)
       (sm : Msg) (dfp : Option (List (ℕ × ℕ))) (st st' : EncSt),
       write_specific_message_definition cat l g mp mf sm dfp st = .ok st' →
       ∃ body, st'.buf = st.buf ++
           ((0x40 ||| (l % 16)) :: 0 :: 0 :: u16le g) ++ body ∧
         (0x40 ||| (l % 16)) &&& 0x0F = l % 16 ∧
         (0x40 ||| (l % 16)) / 16 = 4 ∧ l % 16 < 16) ∧
    (∀ (cat : Catalog) (l : ℕ) (mp : MsgProfile) (message : Msg)
       (st st' : EncSt),
       write_message_data cat l mp message st = .ok st' →
       ∃ bytes, st'.buf = st.buf ++ (l % 16) :: bytes ∧
         (l % 16) / 16 = 0 ∧ l % 16 < 16) ∧
    (∀ (cat : Catalog) (msgs : List (String × List Msg)) (next0 : ℕ)
       (st : EncSt),
       write_messages cat msgs ⟨[], [], next0⟩ = .ok st →
       (st.defs.map Prod.fst).Nodup ∧
       (∀ k ∈ st.defs.map Prod.fst, k < 16) ∧
       st.defs.length ≤ 16) := by
  have hnib : ∀ l : ℕ, (0x40 ||| (l % 16)) &&& 0x0F = l % 16 ∧
      (0x40 ||| (l % 16)) / 16 = 4 ∧ l % 16 < 16 := by
    intro l
    have hm : l % 16 < 16 := Nat.mod_lt _ (by norm_num)
    generalize l % 16 = m at hm ⊢
    interval_cases m <;> exact ⟨by decide, by decide, by decide⟩
  refine ⟨allocSlot_lt, allocSlotDev_lt, ?_, ?_, ?_⟩
  · intro cat l g mp mf sm dfp st st' h
    obtain ⟨body, _, _, hbuf⟩ := wsmd_defs _ _ _ _ _ _ _ _ _ h
    exact ⟨body, hbuf, hnib l⟩
  · intro cat l mp message st st' h
    obtain ⟨_, _, bytes, hbuf⟩ := wmd_defs _ _ _ _ _ _ h
    have hm : l % 16 < 16 := Nat.mod_lt _ (by norm_num)
    exact ⟨bytes, hbuf, Nat.div_eq_of_lt hm, hm⟩
  · intro cat msgs next0 st h
    have hinv : DefsInv st := wmsgs_inv _ _ _ _ h ⟨by simp, by simp⟩
    have hl := nodup_lt16_length _ hinv.1 hinv.2
    rw [List.length_map] at hl
    exact ⟨hinv.1, hinv.2, hl⟩

/-- C9 witness: the slot-invariant theorem applied to a concrete encode
    whose resulting definition table was computed explicitly. -/
theorem C9_witness :
    write_messages exCatalog
        [("file_id_mesgs", [[(.name "type", .vStr "activity")]])]
        ⟨[], [], 0⟩ =
      .ok ⟨[64, 0, 0, 0, 0, 1, 0, 1, 0, 0, 4],
           [(0, ⟨0, [⟨.num 0, 1, 0, none⟩], [(.name "type", .num 0)]⟩)], 1⟩ ∧
    ((([(0, (⟨0, [⟨.num 0, 1, 0, none⟩],
          [(.name "type", .num 0)]⟩ : MsgDef))] : List (ℕ × MsgDef)).map
        Prod.fst).Nodup ∧
     (∀ k ∈ ([(0, (⟨0, [⟨.num 0, 1, 0, none⟩],
          [(.name "type", .num 0)]⟩ : MsgDef))] : List (ℕ × MsgDef)).map
        Prod.fst, k < 16) ∧
     ([(0, (⟨0, [⟨.num 0, 1, 0, none⟩],
          [(.name "type", .num 0)]⟩ : MsgDef))] : List (ℕ × MsgDef)).length
       ≤ 16) :=
  ⟨rfl,
   C9_slot_invariants.2.2.2.2 exCatalog
     [("file_id_mesgs", [[(.name "type", .vStr "activity")]])] 0
     ⟨[64, 0, 0, 0, 0, 1, 0, 1, 0, 0, 4],
      [(0, ⟨0, [⟨.num 0, 1, 0, none⟩], [(.name "type", .num 0)]⟩)], 1⟩ rfl⟩

/-- A monadic fold whose steps only append to the projected buffer only
    appends to the projected buffer. -/
theorem foldlM_buf_ext {α β : Type} (proj : β → List ℕ)
    (f : β → α → Except PyExc β)
    (hf : ∀ s a s', f s a = .ok s' → ∃ app, proj s' = proj s ++ app) :
    ∀ (l : List α) (s s' : β), List.foldlM f s l = .ok s' →
      ∃ app, proj s' = proj s ++ app := by
  intro l
  induction l with
  | nil =>
      intro s s' h
      simp only [List.foldlM_nil] at h
      cases h
      exact ⟨[], by simp⟩
  | cons a rest ih =>
      intro s s' h
      simp only [List.foldlM_cons, bind_ok_iff] at h
      obtain ⟨s1, h1, h2⟩ := h
      obtain ⟨app1, happ1⟩ := hf s a s1 h1
      obtain ⟨app2, happ2⟩ := ih s1 s' h2
      exact ⟨app1 ++ app2, by rw [happ2, happ1, List.append_assoc]⟩

/-- The unified writer only appends to the data buffer. -/
theorem wum_buf (cat : Catalog) (g : ℕ) (mp : MsgProfile)
    (messages : List Msg) (st st' : EncSt)
    (h : write_unified_messages cat g mp messages st = .ok st') :
    ∃ app, st'.buf = st.buf ++ app := by
  unfold write_unified_messages at h
  dsimp only at h
  simp only [bind_ok_iff] at h
  obtain ⟨st1, h1, h2⟩ := h
  obtain ⟨body, _, _, hbuf1⟩ := wsmd_defs _ _ _ _ _ _ _ _ _ h1
  obtain ⟨app2, happ2⟩ := foldlM_buf_ext EncSt.buf _
    (fun s a s' hs => by
      obtain ⟨_, _, bytes, hb⟩ := wmd_defs _ _ _ _ _ _ hs
      exact ⟨_, hb⟩)
    messages st1 st' h2
  refine ⟨((0x40 ||| (allocSlot st.next % 16)) :: 0 :: 0 :: u16le g) ++ body
    ++ app2, ?_⟩
  rw [happ2, hbuf1]
  simp [List.append_assoc]

/-- The field-description writer only appends to the data buffer. -/
theorem wfdm_buf (cat : Catalog) (g : ℕ) (mp : MsgProfile)
    (messages : List Msg) (st st' : EncSt)
    (h : write_field_description_messages cat g mp messages st = .ok st') :
    ∃ app, st'.buf = st.buf ++ app := by
  unfold write_field_description_messages at h
  (try dsimp only at h)
  simp only [bind_ok_iff] at h
  obtain ⟨res, hres, hok⟩ := h
  simp only [Except.ok.injEq] at hok
  subst hok
  exact foldlM_buf_ext (fun s => s.2.buf) _
    (fun s a s' hs => by
      (try dsimp only at hs)
      cases hc : dictGet s.1 (messageFieldSet a) with
      | some local_num =>
          rw [hc] at hs
          simp only [bind_ok_iff] at hs
          obtain ⟨st2, h1, h2⟩ := hs
          simp only [Except.ok.injEq] at h2
          subst h2
          obtain ⟨_, _, bytes, hb⟩ := wmd_defs _ _ _ _ _ _ h1
          exact ⟨_, hb⟩
      | none =>
          rw [hc] at hs
          (try dsimp only at hs)
          simp only [bind_ok_iff] at hs
          obtain ⟨st2, h1, st3, h2, h3⟩ := hs
          simp only [Except.ok.injEq] at h3
          subst h3
          obtain ⟨body, _, _, hb1⟩ := wsmd_defs _ _ _ _ _ _ _ _ _ h1
          obtain ⟨_, _, bytes, hb2⟩ := wmd_defs _ _ _ _ _ _ h2
          refine ⟨((0x40 ||| (allocSlot s.2.next % 16)) :: 0 :: 0 :: u16le g)
            ++ body ++ ((allocSlot s.2.next % 16) :: bytes), ?_⟩
          show st3.buf = s.2.buf ++ _
          rw [hb2, hb1]
          simp [List.append_assoc])
    messages ([], st) res hres

/-- The developer-field writer only appends to the data buffer. -/
theorem wdfm_buf (cat : Catalog) (g : ℕ) (mp : MsgProfile)
    (messages : List Msg) (st st' : EncSt)
    (h : write_developer_field_messages cat g mp messages st = .ok st') :
    ∃ app, st'.buf = st.buf ++ app := by
  unfold write_developer_field_messages at h
  (try dsimp only at h)
  simp only [bind_ok_iff] at h
  obtain ⟨res, hres, hok⟩ := h
  simp only [Except.ok.injEq] at hok
  subst hok
  exact foldlM_buf_ext (fun s => s.2.buf) _
    (fun s a s' hs => by
      (try dsimp only at hs)
      cases hc : dictGet s.1 (devSigOf (devFieldPatterns messages) a) with
      | some local_num =>
          rw [hc] at hs
          simp only [bind_ok_iff] at hs
          obtain ⟨st2, h1, h2⟩ := hs
          simp only [Except.ok.injEq] at h2
          subst h2
          obtain ⟨_, _, bytes, hb⟩ := wmd_defs _ _ _ _ _ _ h1
          exact ⟨_, hb⟩
      | none =>
          rw [hc] at hs
          (try dsimp only at hs)
          simp only [bind_ok_iff] at hs
          obtain ⟨sample, hsamp, st2, h1, st3, h2, h3⟩ := hs
          simp only [Except.ok.injEq] at h3
          subst h3
          obtain ⟨body, _, _, hb1⟩ := wsmd_defs _ _ _ _ _ _ _ _ _ h1
          obtain ⟨_, _, bytes, hb2⟩ := wmd_defs _ _ _ _ _ _ h2
          refine ⟨((0x40 |||
              (allocSlotDev s.2.next (s.1.map Prod.snd) % 16)) ::
              0 :: 0 :: u16le g) ++ body ++
              ((allocSlotDev s.2.next (s.1.map Prod.snd) % 16) :: bytes), ?_⟩
          show st3.buf = s.2.buf ++ _
          rw [hb2, hb1]
          have hst1buf :
              (if 16 ≤ s.2.next then s.2
               else { s.2 with next := s.2.next + 1 }).buf = s.2.buf := by
            split_ifs <;> rfl
          rw [hst1buf]
          simp [List.append_assoc])
    messages ([], st) res hres

/-- The per-message-type dispatch only appends to the data buffer. -/
theorem wmt_buf (cat : Catalog) (n : ℕ) (messages : List Msg)
    (st st' : EncSt)
    (h : write_message_type cat n messages st = .ok st') :
    ∃ app, st'.buf = st.buf ++ app := by
  unfold write_message_type at h
  dsimp only at h
  split_ifs at h with h1 h2
  · exact wfdm_buf _ _ _ _ _ _ h
  · exact wdfm_buf _ _ _ _ _ _ h
  · exact wum_buf _ _ _ _ _ _ h

/-- C10: when the input mapping contains file_id_mesgs with a non-empty
    message list, the write pass emits exactly the file_id records first:
    the final buffer is the buffer of the file_id write followed by the
    remaining records, and in the full file those bytes sit immediately
    after the 14-byte header and before every other record. -/
theorem C10_file_id_first (cat : Catalog) (msgs : List (String × List Msg))
    (next0 : ℕ) (l : List Msg) (stF : EncSt)
    (hget : dictGet msgs "file_id_mesgs" = some l) (hne : l ≠ [])
    (hw : write_messages cat msgs ⟨[], [], next0⟩ = .ok stF) :
    ∃ stId rest,
      write_message_type cat 0 l ⟨[], [], next0⟩ = .ok stId ∧
      stF.buf = stId.buf ++ rest ∧
      (stF.buf.length < 4294967296 →
        ∃ header,
          header.length = 14 ∧
          write_to_bytes cat msgs next0 =
            .ok (header ++ (stId.buf ++ rest) ++
              u16le (calculate_crc (header ++ stF.buf)))) := by
  have hw0 := hw
  unfold write_messages at hw
  rw [hget] at hw
  simp only [bind_ok_iff] at hw
  obtain ⟨stId, hId, hfold⟩ := hw
  obtain ⟨rest, hrest⟩ := foldlM_buf_ext EncSt.buf _
    (fun s a s' hs => by
      split_ifs at hs with hcond
      · cases hg : get_global_message_number cat a.1 with
        | some n =>
            rw [hg] at hs
            exact wmt_buf _ _ _ _ _ hs
        | none =>
            rw [hg] at hs
            cases hs
            exact ⟨[], by simp⟩
      · cases hs
        exact ⟨[], by simp⟩)
    msgs stId stF hfold
  refine ⟨stId, rest, hId, hrest, ?_⟩
  intro hlen
  have hch := create_header_ok stF.buf.length hlen
  have hcb : pack16 (calculate_crc
      (((14 :: 2 :: u16le 21173 ++ u32le stF.buf.length ++
         [0x2E, 0x46, 0x49, 0x54]) ++
        u16le (calculate_crc (14 :: 2 :: u16le 21173 ++
          u32le stF.buf.length ++ [0x2E, 0x46, 0x49, 0x54]))) ++ stF.buf)) =
      .ok (u16le (calculate_crc
        (((14 :: 2 :: u16le 21173 ++ u32le stF.buf.length ++
           [0x2E, 0x46, 0x49, 0x54]) ++
          u16le (calculate_crc (14 :: 2 :: u16le 21173 ++
            u32le stF.buf.length ++ [0x2E, 0x46, 0x49, 0x54]))) ++
         stF.buf))) := by
    simp [pack16, calculate_crc_lt]
  refine ⟨(14 :: 2 :: u16le 21173 ++ u32le stF.buf.length ++
      [0x2E, 0x46, 0x49, 0x54]) ++
      u16le (calculate_crc (14 :: 2 :: u16le 21173 ++
        u32le stF.buf.length ++ [0x2E, 0x46, 0x49, 0x54])), ?_, ?_⟩
  · simp [u16le, u32le, leBytes_length]
  · rw [← hrest]
    simp only [write_to_bytes, bind, Except.bind, hw0, hch, hcb]

/-- C10 witness: the ordering theorem applied to a two-message-type input
    whose record_mesgs entry precedes file_id_mesgs; the file_id bytes
    still come first in the computed buffer. -/
theorem C10_witness :
    dictGet ([("record_mesgs", [[(FKey.name "heart_rate", Value.vInt 97)]]),
              ("file_id_mesgs", [[(FKey.name "type", Value.vStr "activity")]])] :
        List (String × List Msg))
        "file_id_mesgs" =
      some [[(FKey.name "type", Value.vStr "activity")]] ∧
    ([[(FKey.name "type", Value.vStr "activity")]] : List Msg) ≠ [] ∧
    write_messages exCatalog
        [("record_mesgs", [[(.name "heart_rate", .vInt 97)]]),
         ("file_id_mesgs", [[(.name "type", .vStr "activity")]])]
        ⟨[], [], 0⟩ =
      .ok ⟨[64, 0, 0, 0, 0, 1, 0, 1, 0, 0, 4,
            65, 0, 0, 20, 0, 1, 3, 1, 2, 1, 97],
           [(0, ⟨0, [⟨.num 0, 1, 0, none⟩], [(.name "type", .num 0)]⟩),
            (1, ⟨20, [⟨.num 3, 1, 2, none⟩],
              [(.name "heart_rate", .num 3)]⟩)], 2⟩ ∧
    (∃ stId rest,
      write_message_type exCatalog 0 [[(.name "type", .vStr "activity")]]
          ⟨[], [], 0⟩ = .ok stId ∧
      ([64, 0, 0, 0, 0, 1, 0, 1, 0, 0, 4,
        65, 0, 0, 20, 0, 1, 3, 1, 2, 1, 97] : List ℕ) = stId.buf ++ rest ∧
      (([64, 0, 0, 0, 0, 1, 0, 1, 0, 0, 4,
         65, 0, 0, 20, 0, 1, 3, 1, 2, 1, 97] : List ℕ).length < 4294967296 →
        ∃ header,
          header.length = 14 ∧
          write_to_bytes exCatalog
              [("record_mesgs", [[(.name "heart_rate", .vInt 97)]]),
               ("file_id_mesgs", [[(.name "type", .vStr "activity")]])] 0 =
            .ok (header ++ (stId.buf ++ rest) ++
              u16le (calculate_crc (header ++
                [64, 0, 0, 0, 0, 1, 0, 1, 0, 0, 4,
                 65, 0, 0, 20, 0, 1, 3, 1, 2, 1, 97]))))) :=
  ⟨rfl, by simp, rfl,
   C10_file_id_first exCatalog
     [("record_mesgs", [[(.name "heart_rate", .vInt 97)]]),
      ("file_id_mesgs", [[(.name "type", .vStr "activity")]])] 0
     [[(.name "type", .vStr "activity")]]
     ⟨[64, 0, 0, 0, 0, 1, 0, 1, 0, 0, 4,
       65, 0, 0, 20, 0, 1, 3, 1, 2, 1, 97],
      [(0, ⟨0, [⟨.num 0, 1, 0, none⟩], [(.name "type", .num 0)]⟩),
       (1, ⟨20, [⟨.num 3, 1, 2, none⟩], [(.name "heart_rate", .num 3)]⟩)], 2⟩
     rfl (by simp) rfl⟩

end FitEnc
